import Mathlib

/-!
Verification development for the protein-metamorphosis information system:
a shallow embedding of the repository's relational schema
(`protein_metamorphisms_is/sql/model.py`), of the structural-alignment
task-queue semantics, of the pipeline entry point
(`protein_metamorphisms_is/main.py`), of the ESM embedding task
(`operation/embedding/proccess/sequence/esm.py`) and of the example FASTA
driver (`examples/example_fasta/main.py`), together with theorems checking
the specification's statements against these embeddings.
-/

namespace ProteinMIS

/-! ## Relational schema embedding

Each SQLAlchemy `Column(...)` declaration of `sql/model.py` is embedded as a
`ColumnDef` record; table-level `UniqueConstraint(...)` declarations (none are
present on the tables below) would appear in `tableUniqueConstraints`. -/

structure ColumnDef where
  name : String
  dtype : String
  primaryKey : Bool
  unique : Bool
  nullable : Bool
  colDefault : Option String
  foreignKeyTarget : Option String
deriving DecidableEq

structure TableDef where
  name : String
  columns : List ColumnDef
  tableUniqueConstraints : List (List String)
deriving DecidableEq

/-- Foreign-key target declared for column `c` of table `t`. -/
def fkTarget (t : TableDef) (c : String) : Option String :=
  (t.columns.find? (fun col => decide (col.name = c))).bind (fun col => col.foreignKeyTarget)

/-- Default value declared for column `c` of table `t`. -/
def columnDefault (t : TableDef) (c : String) : Option String :=
  (t.columns.find? (fun col => decide (col.name = c))).bind (fun col => col.colDefault)

/-- Unique flag declared for column `c` of table `t`. -/
def columnUnique (t : TableDef) (c : String) : Bool :=
  (t.columns.find? (fun col => decide (col.name = c))).elim false (fun col => col.unique)

/-- Nullable flag declared for column `c` of table `t`. -/
def columnNullable (t : TableDef) (c : String) : Bool :=
  (t.columns.find? (fun col => decide (col.name = c))).elim false (fun col => col.nullable)

/-- Whether the table declares a uniqueness constraint covering both columns
`a` and `b` (a table-level `UniqueConstraint` naming the pair). -/
def hasPairUniqueConstraint (t : TableDef) (a b : String) : Bool :=
  t.tableUniqueConstraints.any (fun cs => decide (a ∈ cs) && decide (b ∈ cs))

/-- Table `sequences`, from `class Sequence` (model.py lines 12-26). -/
def sequencesTable : TableDef :=
  { name := "sequences"
    columns :=
      [ ⟨"id", "Integer", true, false, false, none, none⟩,
        ⟨"sequence", "String", false, false, false, none, none⟩,
        ⟨"sequence_hash", "String", false, true, true, none, none⟩ ]
    tableUniqueConstraints := [] }

/-- Table `clusters`, from `class Cluster` (model.py lines 240-247). -/
def clustersTable : TableDef :=
  { name := "clusters"
    columns :=
      [ ⟨"id", "Integer", true, false, false, none, none⟩,
        ⟨"created_at", "DateTime", false, false, true, some "datetime.now", none⟩ ]
    tableUniqueConstraints := [] }

/-- Table `cluster_entries`, from `class ClusterEntry` (model.py lines 250-262). -/
def clusterEntriesTable : TableDef :=
  { name := "cluster_entries"
    columns :=
      [ ⟨"id", "Integer", true, false, false, none, none⟩,
        ⟨"cluster_id", "Integer", false, false, true, none, some "clusters.id"⟩,
        ⟨"sequence_id", "Integer", false, false, false, none, some "sequences.id"⟩,
        ⟨"is_representative", "Boolean", false, false, true, none, none⟩,
        ⟨"sequence_length", "Integer", false, false, true, none, none⟩,
        ⟨"identity", "Float", false, false, true, none, none⟩,
        ⟨"created_at", "DateTime", false, false, true, some "datetime.now", none⟩ ]
    tableUniqueConstraints := [] }

/-- Table `structural_alignment_types`, from `class StructuralAlignmentType`
(model.py lines 320-351). -/
def structuralAlignmentTypesTable : TableDef :=
  { name := "structural_alignment_types"
    columns :=
      [ ⟨"id", "Integer", true, false, false, none, none⟩,
        ⟨"name", "String", false, false, false, none, none⟩,
        ⟨"description", "String", false, false, true, none, none⟩,
        ⟨"task_name", "String", false, false, true, none, none⟩ ]
    tableUniqueConstraints := [] }

/-- Table `structural_alignment_queue`, from `class StructuralAlignmentQueue`
(model.py lines 378-402).  Note the source declares
`cluster_entry_id = Column(Integer, ForeignKey('clusters.id'), nullable=False)`:
the foreign key points at the `clusters` table. -/
def structuralAlignmentQueueTable : TableDef :=
  { name := "structural_alignment_queue"
    columns :=
      [ ⟨"id", "Integer", true, false, false, none, none⟩,
        ⟨"cluster_entry_id", "Integer", false, false, false, none, some "clusters.id"⟩,
        ⟨"alignment_type_id", "Integer", false, false, false, none,
          some "structural_alignment_types.id"⟩,
        ⟨"state", "Integer", false, false, false, some "0", none⟩,
        ⟨"retry_count", "Integer", false, false, false, some "0", none⟩,
        ⟨"error_message", "String", false, false, true, none, none⟩,
        ⟨"created_at", "DateTime", false, false, false, some "func.now", none⟩,
        ⟨"updated_at", "DateTime", false, false, true, some "func.now", none⟩ ]
    tableUniqueConstraints := [] }

/-- Table `structural_alignment_results`, from `class StructuralAlignmentResults`
(model.py lines 405-435); its `cluster_entry_id` is likewise declared
`ForeignKey('clusters.id')`. -/
def structuralAlignmentResultsTable : TableDef :=
  { name := "structural_alignment_results"
    columns :=
      [ ⟨"id", "Integer", true, false, false, none, none⟩,
        ⟨"cluster_entry_id", "Integer", false, false, true, none, some "clusters.id"⟩,
        ⟨"ce_rms", "Float", false, false, true, none, none⟩,
        ⟨"tm_rms", "Float", false, false, true, none, none⟩,
        ⟨"tm_seq_id", "Float", false, false, true, none, none⟩,
        ⟨"tm_score_chain_1", "Float", false, false, true, none, none⟩,
        ⟨"tm_score_chain_2", "Float", false, false, true, none, none⟩,
        ⟨"fc_rms", "Float", false, false, true, none, none⟩,
        ⟨"fc_identity", "Float", false, false, true, none, none⟩,
        ⟨"fc_similarity", "Float", false, false, true, none, none⟩,
        ⟨"fc_score", "Float", false, false, true, none, none⟩,
        ⟨"fc_align_len", "Float", false, false, true, none, none⟩ ]
    tableUniqueConstraints := [] }

/-! ## Task-queue state machine

The schema of a queue row (fields, integer state encoding, column defaults
`state=0`, `retry_count=0`, nullable `error_message`) is embedded from
`StructuralAlignmentQueue` in `sql/model.py` (lines 392-400).  The queue
operations themselves (`enqueue`, `claim`, `complete`, `fail`) are not part of
the sources under review; they are modelled from the spec, section 4.2. -/

inductive QueueState where
  | pending
  | processing
  | completed
  | error
deriving DecidableEq

/-- Integer encoding of the `state` column: Pending=0, Processing=1,
Completed=2, Error=3. -/
def QueueState.toCode : QueueState → Nat
  | .pending => 0
  | .processing => 1
  | .completed => 2
  | .error => 3

/-- One row of `structural_alignment_queue` (timestamps omitted; no claim
refers to them). -/
structure QueueRow where
  id : Nat
  cluster_entry_id : Nat
  alignment_type_id : Nat
  state : QueueState
  retry_count : Nat
  error_message : Option String
deriving DecidableEq

/-- Metric payload of a completed alignment, column-for-column after
`StructuralAlignmentResults` (Float columns modelled as rationals). -/
structure AlignMetrics where
  ce_rms : Option ℚ
  tm_rms : Option ℚ
  tm_seq_id : Option ℚ
  tm_score_chain_1 : Option ℚ
  tm_score_chain_2 : Option ℚ
  fc_rms : Option ℚ
  fc_identity : Option ℚ
  fc_similarity : Option ℚ
  fc_score : Option ℚ
  fc_align_len : Option ℚ
deriving DecidableEq

/-- One row of `structural_alignment_results`. -/
structure ResultRow where
  id : Nat
  cluster_entry_id : Nat
  metrics : AlignMetrics
deriving DecidableEq

/-- The persistent store portion the queue semantics acts on. -/
structure Store where
  queue : List QueueRow
  results : List ResultRow
deriving DecidableEq

/-- A fresh queue row takes the column defaults of the source schema
(model.py lines 396-398): `state=0` (Pending), `retry_count=0`,
`error_message` NULL. -/
def newQueueRow (rid ce al : Nat) : QueueRow :=
  { id := rid
    cluster_entry_id := ce
    alignment_type_id := al
    state := .pending
    retry_count := 0
    error_message := none }

def maxQueueId (q : List QueueRow) : Nat :=
  q.foldr (fun r acc => max r.id acc) 0

def maxResultId (rs : List ResultRow) : Nat :=
  rs.foldr (fun r acc => max r.id acc) 0

/-- Modelled from the spec: a task is terminal when Completed, or Error with
its retry budget exhausted (glossary: "Terminal state"). -/
def terminalRow (mr : Nat) (r : QueueRow) : Bool :=
  decide (r.state = .completed ∨ (r.state = .error ∧ mr ≤ r.retry_count))

/-- Modelled from the spec: `claim` eligibility — "one Pending (or
retry-eligible Error) row", Error being retry-eligible while `retry_count`
is below the configured maximum (spec sections 3 and 4.2). -/
def eligible (mr : Nat) (r : QueueRow) : Bool :=
  decide (r.state = .pending ∨ (r.state = .error ∧ r.retry_count < mr))

/-- Modelled from the spec: `enqueue(cluster_entry_id, alignment_type_id)`
creates a Pending row unless a non-terminal row for the same pair is already
queued, in which case it is a no-op (spec section 4.2). -/
def enqueueOp (mr : Nat) (s : Store) (ce al : Nat) : Store :=
  if s.queue.any (fun r =>
      decide (r.cluster_entry_id = ce) && decide (r.alignment_type_id = al)
        && !terminalRow mr r) then
    s
  else
    { s with queue := s.queue ++ [newQueueRow (maxQueueId s.queue + 1) ce al] }

/-- Transition the first claim-eligible row of the queue to Processing. -/
def claimQueue (mr : Nat) : List QueueRow → List QueueRow
  | [] => []
  | r :: rs =>
    if eligible mr r then { r with state := .processing } :: rs
    else r :: claimQueue mr rs

/-- Modelled from the spec: `claim(worker_id)` atomically selects one eligible
row and transitions it to Processing (spec section 4.2). -/
def claimOp (mr : Nat) (s : Store) : Store :=
  { s with queue := claimQueue mr s.queue }

/-- Identifier of the row a `claim` call would select. -/
def claimSel (mr : Nat) (s : Store) : Option Nat :=
  (s.queue.find? (fun r => eligible mr r)).map (fun r => r.id)

/-- Mark the row with identifier `tid` Completed, provided it is Processing;
returns the updated queue and, when the transition fired, the row's
`cluster_entry_id`. -/
def completeQueue (tid : Nat) : List QueueRow → List QueueRow × Option Nat
  | [] => ([], none)
  | r :: rs =>
    if r.id = tid then
      if r.state = .processing then ({ r with state := .completed } :: rs, some r.cluster_entry_id)
      else (r :: rs, none)
    else
      (r :: (completeQueue tid rs).1, (completeQueue tid rs).2)

/-- Modelled from the spec: `complete(task_id, result)` writes the
StructuralAlignmentResults row and sets `state=Completed` in one atomic unit
(spec section 4.2); a no-op unless the task is Processing. -/
def completeOp (s : Store) (tid : Nat) (m : AlignMetrics) : Store :=
  match (completeQueue tid s.queue).2 with
  | some ce =>
      { queue := (completeQueue tid s.queue).1
        results := s.results ++ [⟨maxResultId s.results + 1, ce, m⟩] }
  | none => s

/-- Effect of one `fail` on a row: increment `retry_count`, record the
message, and return to Pending while the incremented count is at most `mr`,
else move to Error. -/
def failedRow (mr : Nat) (msg : String) (r : QueueRow) : QueueRow :=
  { r with
    retry_count := r.retry_count + 1
    error_message := some msg
    state := if r.retry_count + 1 ≤ mr then .pending else .error }

/-- Apply the `fail` transition to the row with identifier `tid`, provided it
is Processing. -/
def failQueue (mr tid : Nat) (msg : String) : List QueueRow → List QueueRow
  | [] => []
  | r :: rs =>
    if r.id = tid then
      if r.state = .processing then failedRow mr msg r :: rs
      else r :: rs
    else r :: failQueue mr tid msg rs

/-- Modelled from the spec: `fail(task_id, error_message)` (spec section 4.2).
`recover_stale` transitions Processing rows "through `fail` with a synthetic
stale-claim message" (spec section 4.2), so its transitions are instances of
this operation. -/
def failOp (mr : Nat) (s : Store) (tid : Nat) (msg : String) : Store :=
  { s with queue := failQueue mr tid msg s.queue }

/-- One step of the Task Queue engine: any of the four operations, with
arbitrary arguments. -/
inductive QStep (mr : Nat) : Store → Store → Prop where
  | enqueue (s : Store) (ce al : Nat) : QStep mr s (enqueueOp mr s ce al)
  | claim (s : Store) : QStep mr s (claimOp mr s)
  | complete (s : Store) (tid : Nat) (m : AlignMetrics) : QStep mr s (completeOp s tid m)
  | fail (s : Store) (tid : Nat) (msg : String) : QStep mr s (failOp mr s tid msg)

/-- Stores reachable from the empty store under queue steps. -/
inductive QReachable (mr : Nat) : Store → Prop where
  | init : QReachable mr ⟨[], []⟩
  | step {s s' : Store} : QReachable mr s → QStep mr s s' → QReachable mr s'

/-- Reflexive-transitive closure of `QStep`. -/
inductive QStepStar (mr : Nat) : Store → Store → Prop where
  | refl (s : Store) : QStepStar mr s s
  | tail {s t u : Store} : QStepStar mr s t → QStep mr t u → QStepStar mr s u

/-- First queue row carrying identifier `tid`. -/
def findRow (q : List QueueRow) (tid : Nat) : Option QueueRow :=
  q.find? (fun r => decide (r.id = tid))

/-- The row of the store's queue with identifier `tid`. -/
def rowOf (s : Store) (tid : Nat) : Option QueueRow :=
  findRow s.queue tid

/-- The `cluster_entry_id`s of the Completed queue rows, in queue order. -/
def completedCEs (q : List QueueRow) : List Nat :=
  (q.filter (fun r => decide (r.state = .completed))).map (fun r => r.cluster_entry_id)

/-- The `cluster_entry_id`s of the result rows, in insertion order. -/
def resultCEs (rs : List ResultRow) : List Nat :=
  rs.map (fun r => r.cluster_entry_id)

/-- Number of queue rows for a given (cluster entry, alignment type) pair. -/
def pairCount (s : Store) (ce al : Nat) : Nat :=
  s.queue.countP (fun r =>
    decide (r.cluster_entry_id = ce) && decide (r.alignment_type_id = al))

/-! ## MD5

`Sequence.__init__` (model.py lines 21-23) sets
`self.sequence_hash = func.md5(self.sequence)`, PostgreSQL's `md5()` of the
sequence string.  The MD5 algorithm (RFC 1321) is embedded below over natural
numbers, bytes being values below 256 and 32-bit words reduced modulo 2^32. -/

def w32 (n : Nat) : Nat := n % 4294967296

/-- 32-bit rotate left by `s`. -/
def rotl (x s : Nat) : Nat := w32 (x * 2 ^ s + x / 2 ^ (32 - s))

/-- The 64 MD5 sine-derived constants. -/
def md5K : List Nat :=
  [0xd76aa478, 0xe8c7b756, 0x242070db, 0xc1bdceee,
   0xf57c0faf, 0x4787c62a, 0xa8304613, 0xfd469501,
   0x698098d8, 0x8b44f7af, 0xffff5bb1, 0x895cd7be,
   0x6b901122, 0xfd987193, 0xa679438e, 0x49b40821,
   0xf61e2562, 0xc040b340, 0x265e5a51, 0xe9b6c7aa,
   0xd62f105d, 0x02441453, 0xd8a1e681, 0xe7d3fbc8,
   0x21e1cde6, 0xc33707d6, 0xf4d50d87, 0x455a14ed,
   0xa9e3e905, 0xfcefa3f8, 0x676f02d9, 0x8d2a4c8a,
   0xfffa3942, 0x8771f681, 0x6d9d6122, 0xfde5380c,
   0xa4beea44, 0x4bdecfa9, 0xf6bb4b60, 0xbebfbc70,
   0x289b7ec6, 0xeaa127fa, 0xd4ef3085, 0x04881d05,
   0xd9d4d039, 0xe6db99e5, 0x1fa27cf8, 0xc4ac5665,
   0xf4292244, 0x432aff97, 0xab9423a7, 0xfc93a039,
   0x655b59c3, 0x8f0ccc92, 0xffeff47d, 0x85845dd1,
   0x6fa87e4f, 0xfe2ce6e0, 0xa3014314, 0x4e0811a1,
   0xf7537e82, 0xbd3af235, 0x2ad7d2bb, 0xeb86d391]

/-- The 64 MD5 per-round rotate amounts. -/
def md5S : List Nat :=
  [7, 12, 17, 22, 7, 12, 17, 22, 7, 12, 17, 22, 7, 12, 17, 22,
   5, 9, 14, 20, 5, 9, 14, 20, 5, 9, 14, 20, 5, 9, 14, 20,
   4, 11, 16, 23, 4, 11, 16, 23, 4, 11, 16, 23, 4, 11, 16, 23,
   6, 10, 15, 21, 6, 10, 15, 21, 6, 10, 15, 21, 6, 10, 15, 21]

/-- Round-dependent mixing function (bitwise complement on 32 bits is
subtraction from 4294967295). -/
def md5F (i b c d : Nat) : Nat :=
  if i < 16 then (b &&& c) ||| ((4294967295 - b) &&& d)
  else if i < 32 then (d &&& b) ||| ((4294967295 - d) &&& c)
  else if i < 48 then b ^^^ c ^^^ d
  else c ^^^ (b ||| (4294967295 - d))

/-- Round-dependent message-word index. -/
def md5G (i : Nat) : Nat :=
  if i < 16 then i
  else if i < 32 then (5 * i + 1) % 16
  else if i < 48 then (3 * i + 5) % 16
  else (7 * i) % 16

structure MD5State where
  a : Nat
  b : Nat
  c : Nat
  d : Nat
deriving DecidableEq

def md5Step (M : Nat → Nat) (st : MD5State) (i : Nat) : MD5State :=
  let f := md5F i st.b st.c st.d
  let tmp := w32 (st.a + f + md5K.getD i 0 + M (md5G i))
  ⟨st.d, w32 (st.b + rotl tmp (md5S.getD i 0)), st.b, st.c⟩

/-- Little-endian 32-bit word `j` of a 64-byte block. -/
def wordAt (block : List Nat) (j : Nat) : Nat :=
  block.getD (4 * j) 0 + 256 * block.getD (4 * j + 1) 0
    + 65536 * block.getD (4 * j + 2) 0 + 16777216 * block.getD (4 * j + 3) 0

def md5Block (st : MD5State) (block : List Nat) : MD5State :=
  let e := (List.range 64).foldl (md5Step (wordAt block)) st
  ⟨w32 (st.a + e.a), w32 (st.b + e.b), w32 (st.c + e.c), w32 (st.d + e.d)⟩

/-- UTF-8 encoding of one character, as PostgreSQL hashes the byte form. -/
def utf8Bytes (c : Char) : List Nat :=
  let n := c.toNat
  if n < 128 then [n]
  else if n < 2048 then [192 + n / 64, 128 + n % 64]
  else if n < 65536 then [224 + n / 4096, 128 + (n / 64) % 64, 128 + n % 64]
  else [240 + n / 262144, 128 + (n / 4096) % 64, 128 + (n / 64) % 64, 128 + n % 64]

def strBytes (s : String) : List Nat :=
  s.data.foldr (fun c acc => utf8Bytes c ++ acc) []

/-- MD5 padding: a 0x80 byte, zeros to 56 mod 64, then the bit length as a
little-endian 64-bit quantity. -/
def padMessage (msg : List Nat) : List Nat :=
  let bitLen := 8 * msg.length
  let zeros := (119 - msg.length % 64) % 64
  msg ++ [128] ++ List.replicate zeros 0
    ++ (List.range 8).map (fun i => bitLen / 256 ^ i % 256)

def chunksGo : Nat → List Nat → List (List Nat)
  | 0, _ => []
  | n + 1, l => l.take 64 :: chunksGo n (l.drop 64)

/-- Split a padded message into its 64-byte blocks. -/
def md5Chunks (l : List Nat) : List (List Nat) := chunksGo (l.length / 64) l

def md5Init : MD5State := ⟨1732584193, 4023233417, 2562383102, 271733878⟩

/-- The 128-bit MD5 digest of a string, as a natural number with the digest's
sixteen bytes in little-endian order. -/
def md5Digest (s : String) : Nat :=
  let e := (md5Chunks (padMessage (strBytes s))).foldl md5Block md5Init
  e.a + 4294967296 * e.b + 18446744073709551616 * e.c
    + 79228162514264337593543950336 * e.d

def hexDigitChar (n : Nat) : Char :=
  if n < 10 then Char.ofNat (48 + n) else Char.ofNat (87 + n)

/-- Lowercase 32-character hex rendering of the digest, as PostgreSQL's
`md5()` returns it. -/
def toHexDigest (n : Nat) : String :=
  String.mk (((List.range 16).map (fun i =>
    let byte := n / 256 ^ i % 256
    [hexDigitChar (byte / 16), hexDigitChar (byte % 16)])).flatten)

def md5 (s : String) : String := toHexDigest (md5Digest s)

/-- One row of `sequences` as produced by the constructor; the serial primary
key is store-assigned and omitted. -/
structure SequenceRow where
  sequence : String
  sequence_hash : Option String
deriving DecidableEq

/-- Constructor `Sequence.__init__` (model.py lines 21-23): the hash column is set to the
MD5 of the sequence value on construction. -/
def mkSequence (seq : String) : SequenceRow :=
  { sequence := seq, sequence_hash := some (md5 seq) }

/-! ## Clustering Engine

The Clustering Engine's code is not among the sources under review; only the
`Cluster`/`ClusterEntry` schema is (model.py lines 240-262).  The engine is
modelled from the spec, section 4.1. -/

/-- A sequence record as seen by the Clustering Engine. -/
structure SeqItem where
  id : Nat
  sequence : String
deriving DecidableEq

/-- Modelled from the spec: the engine "must pick exactly one representative
entry per cluster using the method's own scoring … tie-break: lowest Sequence
identifier" (spec section 4.1).  `score` is the opaque method scoring, keyed
by sequence identifier. -/
def betterRep (score : Nat → Int) (a b : SeqItem) : SeqItem :=
  if score a.id < score b.id ∨ (score b.id = score a.id ∧ b.id < a.id) then b else a

def pickRepresentative (score : Nat → Int) : List SeqItem → Option SeqItem
  | [] => none
  | m :: ms => some (ms.foldl (betterRep score) m)

/-- One row of `cluster_entries` (model.py lines 250-262); `id` is a surrogate
for the store-assigned serial key, `identity` the opaque similarity-to-
representative score. -/
structure ClusterEntryRow where
  id : Nat
  cluster_id : Nat
  sequence_id : Nat
  is_representative : Bool
  sequence_length : Nat
  identity : Int
deriving DecidableEq

def mkEntriesAux (ident : Nat → Int) (cid repId : Nat) :
    Nat → List SeqItem → List ClusterEntryRow
  | _, [] => []
  | eid, m :: ms =>
    { id := eid
      cluster_id := cid
      sequence_id := m.id
      is_representative := decide (m.id = repId)
      sequence_length := m.sequence.length
      identity := ident m.id } :: mkEntriesAux ident cid repId (eid + 1) ms

/-- Modelled from the spec: membership rows of one cluster, flagging as
representative exactly the member picked by `pickRepresentative`. -/
def mkClusterEntries (score ident : Nat → Int) (cid : Nat)
    (members : List SeqItem) : List ClusterEntryRow :=
  match pickRepresentative score members with
  | none => []
  | some rep => mkEntriesAux ident cid rep.id 1 members

/-- Modelled from the spec: one clustering run over the partition produced by
the opaque similarity method — each part becomes a `Cluster` row (numbered
from 1) owning its membership entries (spec section 4.1). -/
def clusterRun (score ident : Nat → Int) :
    Nat → List (List SeqItem) → List (Nat × List ClusterEntryRow)
  | _, [] => []
  | cid, ms :: rest =>
    (cid, mkClusterEntries score ident cid ms) :: clusterRun score ident (cid + 1) rest

/-! ## Pipeline entry point

Embedded from `protein_metamorphisms_is/main.py` (lines 17-29): `main` calls
the eleven stage operations in a fixed textual order; a Python exception in
any of them propagates and aborts the remaining calls, and the interpreter
exits non-zero exactly when an exception escapes `main`.  The stage bodies
live outside the sources under review, so each stage's outcome is an opaque
`Except` value. -/

/-- The stage calls of `main`, in source order (main.py lines 19-29). -/
def pipelineStageNames : List String :=
  ["AccessionManager.fetch_accessions_from_api",
   "AccessionManager.load_accessions_from_csv",
   "UniProtExtractor.start",
   "PDBExtractor.start",
   "SequenceEmbeddingManager.start",
   "Structure3DiManager.start",
   "SequenceClustering.start",
   "StructuralSubClustering.start",
   "StructuralAlignmentManager.start",
   "SequenceGOAnnotation.start",
   "GoMultifunctionalityMetrics.start"]

/-- Sequential execution of stage outcomes: stop at the first error. -/
def runSeq : List (Except String Unit) → Except String Unit
  | [] => .ok ()
  | .ok () :: rest => runSeq rest
  | .error e :: _ => .error e

/-- How many stage calls are actually entered before `main` returns or the
first exception aborts it. -/
def executedCount : List (Except String Unit) → Nat
  | [] => 0
  | .ok () :: rest => executedCount rest + 1
  | .error _ :: _ => 1

/-- The outcome list of one `main` invocation, stage `i`'s opaque `run`
returning `outcome i`. -/
def pipelineOutcomes (outcome : Nat → Except String Unit) : List (Except String Unit) :=
  (List.range pipelineStageNames.length).map outcome

def mainResult (outcome : Nat → Except String Unit) : Except String Unit :=
  runSeq (pipelineOutcomes outcome)

/-- Process exit status: 0 when `main` returns, 1 when an exception escapes. -/
def mainExitCode (outcome : Nat → Except String Unit) : Nat :=
  match mainResult outcome with
  | .ok () => 0
  | .error _ => 1

/-! ## ESM embedding task

Embedded from `operation/embedding/proccess/sequence/esm.py` (lines 13-54).
The torch/transformers calls are external opaque operations, but the
source's exception boundaries are kept: the `try` block (lines 37-52) wraps
only the model invocation and the record construction, while
`model.to(device)` (line 29), the tokenizer call (line 34) and the
per-tensor `.to(device)` transfers (line 35) sit outside any `try`, so an
exception in them propagates out of `embedding_task`.

- `modelMove` is the outcome of `model.to(device)` — uncaught.
- `tokenize s` is the outcome of tokenizing sequence `s` and moving its
  tensors to the device (lines 34-35) — uncaught; `Tok` is the opaque
  token-batch type.
- `modelOut t` is the outcome of the `try` block on token batch `t`: `some`
  the embedding vector and shape on success, `none` when the block catches
  an exception and the loop runs `continue`. -/

/-- The record appended for each successfully embedded sequence
(esm.py lines 43-47), float values modelled as rationals. -/
structure EmbeddingRecord where
  sequence : String
  embedding : List ℚ
  shape : List Nat
deriving DecidableEq

/-- The `for sequence in sequences` loop (esm.py lines 33-52): a
tokenization/transfer failure (outside the `try`) propagates and aborts the
loop; a failure caught inside the `try` skips the sequence; a success
appends its record. -/
def embedLoop {Tok : Type} (tokenize : String → Except String Tok)
    (modelOut : Tok → Option (List ℚ × List Nat)) :
    List String → Except String (List EmbeddingRecord)
  | [] => .ok []
  | s :: rest =>
    match tokenize s with
    | .error e => .error e
    | .ok t =>
      match modelOut t with
      | some p => (embedLoop tokenize modelOut rest).map (fun l => ⟨s, p.1, p.2⟩ :: l)
      | none => embedLoop tokenize modelOut rest

/-- Function `embedding_task` (esm.py lines 13-54): raise before any
processing when CUDA is unavailable; then `model.to(device)` runs uncaught
(line 29); then the per-sequence loop. -/
def embedding_task {Tok : Type} (cudaAvailable : Bool)
    (modelMove : Except String Unit) (tokenize : String → Except String Tok)
    (modelOut : Tok → Option (List ℚ × List Nat)) (sequences : List String) :
    Except String (List EmbeddingRecord) :=
  if cudaAvailable then
    match modelMove with
    | .error e => .error e
    | .ok () => embedLoop tokenize modelOut sequences
  else .error "CUDA is not available. This script requires a GPU with CUDA."

/-- Whether a sequence's model invocation succeeds once its (uncaught)
tokenization did: the predicate the returned records are filtered by. -/
def seqSucceeds {Tok : Type} (tokenize : String → Except String Tok)
    (modelOut : Tok → Option (List ℚ × List Nat)) (s : String) : Bool :=
  match tokenize s with
  | .ok t => (modelOut t).isSome
  | .error _ => false

/-! ## Example FASTA driver

Embedded from `examples/example_fasta/main.py` (lines 10-33). -/

/-- A `PDBReference` row as the example's query sees it (`pdb_id` plus the
nullable `resolution` column, floats modelled as rationals). -/
structure PDBRefRow where
  pdb_id : String
  resolution : Option ℚ
deriving DecidableEq

/-- The threshold `config.get("resolution_threshold", 2.5)` (main.py line 24). -/
def resolutionThreshold (cfg : Option ℚ) : ℚ := cfg.getD (5 / 2)

/-- The query of main.py line 24: rows whose resolution is below the
threshold (SQL `<` on a NULL resolution selects nothing), projected to
`pdb_id` (line 25). -/
def resolutionFiltered (refs : List PDBRefRow) (threshold : ℚ) : List String :=
  (refs.filter (fun r => (r.resolution.map (fun x => decide (x < threshold))).getD false)).map
    (fun r => r.pdb_id)

/-- Python's `l[:-n]` for `n ≥ 1`: all but the last `n` elements, empty when
`l` has at most `n` elements. -/
def pySliceDropLast (l : List String) (n : Nat) : List String :=
  l.take (l.length - n)

/-- Function `main` of the FASTA example: the argument passed to `download_fastas`
(line 30, `pdb_ids[:-500]`) and the one passed to `merge_fastas`
(line 32, `pdb_ids`). -/
def exampleFastaMain (refs : List PDBRefRow) (cfgThreshold : Option ℚ) :
    List String × List String :=
  let pdb_ids := resolutionFiltered refs (resolutionThreshold cfgThreshold)
  (pySliceDropLast pdb_ids 500, pdb_ids)

/-! ## Statement of the claimed queue transition discipline and fixtures -/

/-- The transition discipline asserted by the specification for the queue
lifecycle: rows move only along Pending→Processing→{Completed|Error}, plus
Error→Pending while the retry count is below the maximum. -/
def specC1EdgeDiscipline (mr : Nat) : Prop :=
  ∀ s s' : Store, QReachable mr s → QStep mr s s' →
    ∀ (tid : Nat) (r r' : QueueRow),
      rowOf s tid = some r → rowOf s' tid = some r' →
      r' = r ∨
      (r.state = .pending ∧ r'.state = .processing) ∨
      (r.state = .processing ∧ (r'.state = .completed ∨ r'.state = .error)) ∨
      (r.state = .error ∧ r'.state = .pending ∧ r.retry_count < mr)

/-- Store holding one freshly enqueued and then claimed task (a Processing
row with identifier 1 and `retry_count = 0`). -/
def wStore (mr : Nat) : Store := claimOp mr (enqueueOp mr ⟨[], []⟩ 1 1)

/-- The Processing row of `wStore`. -/
def wRowProc : QueueRow :=
  { id := 1, cluster_entry_id := 1, alignment_type_id := 1
    state := .processing, retry_count := 0, error_message := none }

/-- Concrete metric payload used by fixtures: `ce_rms = 1.2`, matching the
spec's worked scenario. -/
def wMetrics : AlignMetrics :=
  { ce_rms := some (6 / 5), tm_rms := none, tm_seq_id := none
    tm_score_chain_1 := none, tm_score_chain_2 := none, fc_rms := none
    fc_identity := none, fc_similarity := none, fc_score := none
    fc_align_len := none }

/-- Concrete `PDBReference` rows for the FASTA example fixture. -/
def wRefs : List PDBRefRow :=
  [⟨"1ABC", some 1⟩, ⟨"2XYZ", none⟩, ⟨"3LOW", some 4⟩]

/-- Five sequence records, the one with identifier 3 being the clearly most
central member under `wScore`. -/
def fiveSeqs : List SeqItem :=
  [⟨1, "AAA"⟩, ⟨2, "AAB"⟩, ⟨3, "ABC"⟩, ⟨4, "BBB"⟩, ⟨5, "CCCC"⟩]

/-- Centrality scoring making sequence 3 the unique maximum. -/
def wScore : Nat → Int := fun n => if n = 3 then 10 else 1

/-- Opaque identity-to-representative scores for the fixture. -/
def wIdent : Nat → Int := fun n => Int.ofNat n

/-- A stage-outcome assignment whose third stage raises. -/
def wOutcome : Nat → Except String Unit :=
  fun i => if i = 2 then .error "boom" else .ok ()

/-- Tokenization fixture (token-batch type `String`): raises on the sequence
"BAD" — uncaught in the source — and succeeds otherwise. -/
def wTokenize : String → Except String String :=
  fun s => if s = "BAD" then .error "tokenizer failure" else .ok s

/-- Model-invocation fixture: the try block catches a failure on token batch
"VL" and succeeds otherwise. -/
def wModelOut : String → Option (List ℚ × List Nat) :=
  fun t => if t = "VL" then none else some ([1], [1, 2])

/-- Bounds on the four 32-bit state words. -/
def md5StateBounded (st : MD5State) : Prop :=
  st.a < 4294967296 ∧ st.b < 4294967296 ∧ st.c < 4294967296 ∧ st.d < 4294967296

/-! # Theorems -/

/-! ## Pipeline sequencing lemmas -/

theorem runSeq_eq_ok_iff (l : List (Except String Unit)) :
    runSeq l = .ok () ↔ ∀ o ∈ l, o = .ok () := by
  induction l with
  | nil => simp [runSeq]
  | cons o rest ih =>
    cases o with
    | ok u => cases u; simpa [runSeq] using ih
    | error e => simp [runSeq]

theorem executedCount_le (l : List (Except String Unit)) :
    executedCount l ≤ l.length := by
  induction l with
  | nil => simp [executedCount]
  | cons o rest ih =>
    cases o with
    | ok u => cases u; simpa [executedCount, Nat.succ_le_succ_iff] using ih
    | error e => simp only [executedCount, List.length_cons]; omega

theorem executed_get?_ok (l : List (Except String Unit)) :
    ∀ i, i < executedCount l → ∀ j, j < i → l.get? j = some (.ok ()) := by
  induction l with
  | nil => intro i hi; simp [executedCount] at hi
  | cons o rest ih =>
    intro i hi j hj
    cases o with
    | error e =>
      simp [executedCount] at hi
      omega
    | ok u =>
      cases u
      cases i with
      | zero => omega
      | succ k =>
        have hk : k < executedCount rest := by
          simpa [executedCount, Nat.succ_lt_succ_iff] using hi
        cases j with
        | zero => rfl
        | succ j' => exact ih k hk j' (by omega)

theorem runSeq_first_error (l : List (Except String Unit)) :
    ∀ (i : Nat) (e : String), l.get? i = some (.error e) →
      (∀ j, j < i → l.get? j = some (.ok ())) → runSeq l = .error e := by
  induction l with
  | nil => intro i e hi; simp at hi
  | cons o rest ih =>
    intro i e hi hj
    cases i with
    | zero =>
      simp [List.get?] at hi
      rw [hi]
      rfl
    | succ k =>
      have h0 : o = .ok () := by
        have := hj 0 (Nat.succ_pos k)
        simpa [List.get?] using this
      subst h0
      show runSeq rest = .error e
      exact ih k e (by simpa [List.get?] using hi)
        (fun j hjk => by simpa [List.get?] using hj (j + 1) (by omega))

theorem pipelineOutcomes_get? (outcome : Nat → Except String Unit) (i : Nat)
    (h : i < pipelineStageNames.length) :
    (pipelineOutcomes outcome).get? i = some (outcome i) := by
  rw [pipelineOutcomes, List.get?_map, List.get?_range h, Option.map_some']

theorem pipelineOutcomes_length (outcome : Nat → Except String Unit) :
    (pipelineOutcomes outcome).length = pipelineStageNames.length := by
  simp [pipelineOutcomes]

/-- C8: `main` (main.py lines 17-29) runs the eleven stage calls strictly in
the declared order — a stage call is entered only when every earlier stage
returned successfully; the run succeeds iff every stage does; the process
exit status is 0 exactly on full success; and the first stage failure is the
error the invocation surfaces. -/
theorem claim_C8_pipeline_order (outcome : Nat → Except String Unit) :
    (∀ i, i < executedCount (pipelineOutcomes outcome) →
      i < pipelineStageNames.length ∧ ∀ j, j < i → outcome j = .ok ()) ∧
    (mainResult outcome = .ok () ↔
      ∀ i, i < pipelineStageNames.length → outcome i = .ok ()) ∧
    (mainExitCode outcome = 0 ↔ mainResult outcome = .ok ()) ∧
    (∀ i e, i < pipelineStageNames.length → (∀ j, j < i → outcome j = .ok ()) →
      outcome i = .error e → mainResult outcome = .error e) := by
  refine ⟨?_, ?_, ?_, ?_⟩
  · intro i hi
    have hlen : i < pipelineStageNames.length := by
      have := lt_of_lt_of_le hi (executedCount_le _)
      rwa [pipelineOutcomes_length] at this
    refine ⟨hlen, fun j hj => ?_⟩
    have hjl : j < pipelineStageNames.length := lt_trans hj hlen
    have h1 := executed_get?_ok (pipelineOutcomes outcome) i hi j hj
    rw [pipelineOutcomes_get? outcome j hjl] at h1
    exact Option.some.inj h1
  · rw [mainResult, runSeq_eq_ok_iff]
    constructor
    · intro h i hi
      refine h _ ?_
      rw [pipelineOutcomes]
      exact List.mem_map_of_mem outcome (List.mem_range.mpr hi)
    · intro h o ho
      rw [pipelineOutcomes] at ho
      obtain ⟨i, hi, rfl⟩ := List.mem_map.mp ho
      exact h i (List.mem_range.mp hi)
  · rw [mainExitCode]
    cases hres : mainResult outcome with
    | ok u => cases u; simp
    | error e => simp
  · intro i e hi hprev herr
    refine runSeq_first_error _ i e ?_ ?_
    · rw [pipelineOutcomes_get? outcome i hi, herr]
    · intro j hj
      rw [pipelineOutcomes_get? outcome j (lt_trans hj hi), hprev j hj]

/-- C8 witness: a concrete run whose third stage raises aborts with that
error, exits non-zero, and enters exactly three stage calls. -/
theorem claim_C8_witness :
    mainResult wOutcome = .error "boom" ∧ mainExitCode wOutcome = 1 ∧
      executedCount (pipelineOutcomes wOutcome) = 3 := by
  refine ⟨?_, by rfl, by rfl⟩
  exact (claim_C8_pipeline_order wOutcome).2.2.2 2 "boom" (by decide)
    (by intro j hj; interval_cases j <;> rfl) (by rfl)

/-! ## ESM embedding task (C9) -/

/-- C9 counterexample: with CUDA available and the model transfer fine, a
tokenizer failure on the second sequence — the tokenizer call at esm.py
line 34 sits outside the try block — propagates out of `embedding_task`
instead of being caught and skipped, and no record list is returned at all. -/
theorem claim_C9_counterexample :
    embedding_task true (.ok ()) wTokenize wModelOut ["MK", "BAD", "VL"] =
      .error "tokenizer failure" ∧
    (embedding_task true (.ok ()) wTokenize wModelOut ["MK", "BAD", "VL"]).toOption
      = none :=
  ⟨rfl, rfl⟩

/-- C9 as amended: `embedding_task` raises before processing any sequence
when CUDA is unavailable; after that check, a failure of `model.to(device)`
or of a sequence's tokenization/tensor transfer — both outside the try
block — propagates to the caller and aborts the task, while only a failure
inside the per-sequence try block (the model invocation and record
construction) is caught and the sequence skipped.  When the model transfer
and every tokenization succeed, the task returns, in input order, exactly
one record per sequence whose model invocation succeeded, so the returned
list's length is at most the input list's length. -/
theorem claim_C9_embedding_task {Tok : Type} (modelMove : Except String Unit)
    (tokenize : String → Except String Tok)
    (modelOut : Tok → Option (List ℚ × List Nat)) (sequences : List String) :
    embedding_task false modelMove tokenize modelOut sequences =
      .error "CUDA is not available. This script requires a GPU with CUDA." ∧
    (∀ e, modelMove = .error e →
      embedding_task true modelMove tokenize modelOut sequences = .error e) ∧
    (∀ s rest e, tokenize s = .error e →
      embedLoop tokenize modelOut (s :: rest) = .error e) ∧
    ((∀ s ∈ sequences, ∃ t, tokenize s = .ok t) →
      ∃ l, embedding_task true (.ok ()) tokenize modelOut sequences = .ok l ∧
        l.map (fun r => r.sequence) =
          sequences.filter (seqSucceeds tokenize modelOut) ∧
        l.length ≤ sequences.length) := by
  refine ⟨rfl, ?_, ?_, ?_⟩
  · intro e he
    rw [he]
    rfl
  · intro s rest e he
    simp only [embedLoop, he]
  · intro htok
    have hmain : ∀ ss : List String, (∀ s ∈ ss, ∃ t, tokenize s = .ok t) →
        ∃ l, embedLoop tokenize modelOut ss = .ok l ∧
          l.map (fun r => r.sequence) = ss.filter (seqSucceeds tokenize modelOut) ∧
          l.length ≤ ss.length := by
      intro ss
      induction ss with
      | nil => intro; exact ⟨[], rfl, rfl, Nat.le_refl 0⟩
      | cons s rest ih =>
        intro h
        obtain ⟨t, ht⟩ := h s (List.mem_cons_self s rest)
        obtain ⟨l, hl, hmap, hlen⟩ := ih (fun x hx => h x (List.mem_cons_of_mem s hx))
        cases hmo : modelOut t with
        | some p =>
          have hss : seqSucceeds tokenize modelOut s = true := by
            simp [seqSucceeds, ht, hmo]
          refine ⟨⟨s, p.1, p.2⟩ :: l, ?_, ?_, ?_⟩
          · simp only [embedLoop, ht, hmo, hl, Except.map]
          · rw [List.map_cons, hmap, List.filter_cons, if_pos hss]
          · rw [List.length_cons, List.length_cons]
            exact Nat.succ_le_succ hlen
        | none =>
          have hss : ¬ (seqSucceeds tokenize modelOut s = true) := by
            simp [seqSucceeds, ht, hmo]
          refine ⟨l, ?_, ?_, ?_⟩
          · simp only [embedLoop, ht, hmo]
            exact hl
          · rw [hmap, List.filter_cons, if_neg hss]
          · rw [List.length_cons]
            exact Nat.le_succ_of_le hlen
    obtain ⟨l, hl, hmap, hlen⟩ := hmain sequences htok
    exact ⟨l, hl, hmap, hlen⟩

/-- C9 witness: with CUDA available, the model transfer fine and every
sequence tokenizing, the task returns in order exactly the records of the
sequences whose model invocation succeeded — "MK" yields a record while the
try-block failure on "VL" is caught and skipped. -/
theorem claim_C9_witness :
    embedding_task true (.ok ()) wTokenize wModelOut ["MK", "VL"] =
      .ok [⟨"MK", [1], [1, 2]⟩] ∧
    ([(⟨"MK", [1], [1, 2]⟩ : EmbeddingRecord)].map (fun r => r.sequence) =
      ["MK", "VL"].filter (seqSucceeds wTokenize wModelOut)) ∧
    [(⟨"MK", [1], [1, 2]⟩ : EmbeddingRecord)].length ≤ (["MK", "VL"] : List String).length := by
  have htok : ∀ s ∈ (["MK", "VL"] : List String), ∃ t, wTokenize s = .ok t := by
    intro s hs
    rcases List.mem_cons.mp hs with rfl | hs
    · exact ⟨"MK", rfl⟩
    rcases List.mem_cons.mp hs with rfl | hs
    · exact ⟨"VL", rfl⟩
    · simp at hs
  obtain ⟨l, hl, hmap, hlen⟩ :=
    (claim_C9_embedding_task (.ok ()) wTokenize wModelOut ["MK", "VL"]).2.2.2 htok
  have hle : l = [⟨"MK", [1], [1, 2]⟩] := by
    have h2 : embedding_task true (.ok ()) wTokenize wModelOut ["MK", "VL"] =
        .ok [(⟨"MK", [1], [1, 2]⟩ : EmbeddingRecord)] := by rfl
    exact Except.ok.inj (hl.symm.trans h2)
  rw [hle] at hl hmap hlen
  exact ⟨hl, hmap, hlen⟩

/-! ## Example FASTA driver -/

/-- C10: the example's `main` (example_fasta/main.py lines 24-32) passes
`download_fastas` the filtered id list with its last 500 elements removed
while `merge_fastas` receives the full list; with at most 500 filtered ids
nothing at all is downloaded though the merge still covers every id. -/
theorem claim_C10_fasta_slice (refs : List PDBRefRow) (cfg : Option ℚ) :
    (exampleFastaMain refs cfg).1 =
      pySliceDropLast (resolutionFiltered refs (resolutionThreshold cfg)) 500 ∧
    (exampleFastaMain refs cfg).2 = resolutionFiltered refs (resolutionThreshold cfg) ∧
    ((resolutionFiltered refs (resolutionThreshold cfg)).length ≤ 500 →
      (exampleFastaMain refs cfg).1 = [] ∧
      (exampleFastaMain refs cfg).2 = resolutionFiltered refs (resolutionThreshold cfg)) := by
  have e1 : (exampleFastaMain refs cfg).1 =
      pySliceDropLast (resolutionFiltered refs (resolutionThreshold cfg)) 500 := by
    rw [exampleFastaMain]
  have e2 : (exampleFastaMain refs cfg).2 =
      resolutionFiltered refs (resolutionThreshold cfg) := by
    rw [exampleFastaMain]
  refine ⟨e1, e2, fun h => ⟨?_, e2⟩⟩
  have h0 : (resolutionFiltered refs (resolutionThreshold cfg)).length - 500 = 0 :=
    Nat.sub_eq_zero_of_le h
  rw [e1, pySliceDropLast, h0, List.take_zero]

/-- C10 witness: on three reference rows of which one passes the default
2.5 Å filter, the download argument is empty while the merge argument is the
full filtered list. -/
theorem claim_C10_witness :
    (exampleFastaMain wRefs none).1 = [] ∧ (exampleFastaMain wRefs none).2 = ["1ABC"] := by
  have hfil : resolutionFiltered wRefs (resolutionThreshold none) = ["1ABC"] := by
    simp only [resolutionFiltered, wRefs, resolutionThreshold, Option.getD_none,
      List.filter_cons, List.filter_nil, Option.map_some', Option.map_none',
      Option.getD_some]
    norm_num
  have h := (claim_C10_fasta_slice wRefs none).2.2 (by rw [hfil]; simp)
  exact ⟨h.1, h.2.trans hfil⟩

/-! ## Queue schema constraints (C4, C5) -/

theorem terminalRow_new (mr rid ce al : Nat) :
    terminalRow mr (newQueueRow rid ce al) = false := by
  apply decide_eq_false
  rintro (h | ⟨h, -⟩) <;> exact absurd h (by simp [newQueueRow])

theorem eligible_new (mr rid ce al : Nat) :
    eligible mr (newQueueRow rid ce al) = true := by
  apply decide_eq_true
  exact Or.inl rfl

/-- C4 counterexample: the `structural_alignment_queue` table declaration
(model.py lines 392-400) contains no uniqueness constraint on the
(cluster_entry_id, alignment_type_id) pair — indeed no table-level unique
constraint and no unique column at all — so the claimed store-side
enforcement does not exist. -/
theorem claim_C4_counterexample :
    hasPairUniqueConstraint structuralAlignmentQueueTable
      "cluster_entry_id" "alignment_type_id" = false ∧
    structuralAlignmentQueueTable.tableUniqueConstraints = [] ∧
    (structuralAlignmentQueueTable.columns.filter (fun c => c.unique)).map
      (fun c => c.name) = [] := by
  exact ⟨by decide, by decide, by decide⟩

/-- C4 as amended: `enqueue` is idempotent — a second enqueue of a pair whose
row is non-terminal is a no-op, and starting from no row for the pair, two
enqueues leave exactly one row — but this is enforced by the operation's own
non-terminal-pair check, not by a uniqueness constraint, since the schema
declares none on the pair. -/
theorem claim_C4_enqueue_idempotent (mr : Nat) (s : Store) (ce al : Nat) :
    enqueueOp mr (enqueueOp mr s ce al) ce al = enqueueOp mr s ce al ∧
    (pairCount s ce al = 0 →
      pairCount (enqueueOp mr (enqueueOp mr s ce al) ce al) ce al = 1) ∧
    hasPairUniqueConstraint structuralAlignmentQueueTable
      "cluster_entry_id" "alignment_type_id" = false := by
  have hP : ∀ mr' rid, (fun r : QueueRow =>
      decide (r.cluster_entry_id = ce) && decide (r.alignment_type_id = al)
        && !terminalRow mr' r) (newQueueRow rid ce al) = true := by
    intro mr' rid
    simp only [terminalRow_new, Bool.not_false, Bool.and_true]
    simp [newQueueRow]
  have idem : enqueueOp mr (enqueueOp mr s ce al) ce al = enqueueOp mr s ce al := by
    by_cases h : s.queue.any (fun r =>
        decide (r.cluster_entry_id = ce) && decide (r.alignment_type_id = al)
          && !terminalRow mr r) = true
    · have e1 : enqueueOp mr s ce al = s := by simp [enqueueOp, h]
      rw [e1, e1]
    · have e1 : enqueueOp mr s ce al =
          { s with queue := s.queue ++ [newQueueRow (maxQueueId s.queue + 1) ce al] } := by
        simp [enqueueOp, h]
      have hany : ({ s with queue :=
          s.queue ++ [newQueueRow (maxQueueId s.queue + 1) ce al] } : Store).queue.any
          (fun r => decide (r.cluster_entry_id = ce) && decide (r.alignment_type_id = al)
            && !terminalRow mr r) = true := by
        apply List.any_eq_true.mpr
        exact ⟨newQueueRow (maxQueueId s.queue + 1) ce al,
          List.mem_append.mpr (Or.inr (List.mem_singleton.mpr rfl)), hP mr _⟩
      rw [e1]
      simp [enqueueOp, hany]
  refine ⟨idem, ?_, by decide⟩
  intro h0
  have hnone : s.queue.any (fun r =>
      decide (r.cluster_entry_id = ce) && decide (r.alignment_type_id = al)
        && !terminalRow mr r) ≠ true := by
    intro hany
    obtain ⟨r, hr, hpr⟩ := List.any_eq_true.mp hany
    have hpair : (decide (r.cluster_entry_id = ce)
        && decide (r.alignment_type_id = al)) = true := by
      simp only [Bool.and_eq_true] at hpr ⊢
      exact hpr.1
    exact (List.countP_eq_zero.mp h0 r hr) hpair
  have e1 : enqueueOp mr s ce al =
      { s with queue := s.queue ++ [newQueueRow (maxQueueId s.queue + 1) ce al] } := by
    simp [enqueueOp, hnone]
  rw [idem, e1]
  show List.countP _ (s.queue ++ [newQueueRow (maxQueueId s.queue + 1) ce al]) = 1
  rw [List.countP_append]
  have hc1 : List.countP (fun r : QueueRow =>
      decide (r.cluster_entry_id = ce) && decide (r.alignment_type_id = al))
      [newQueueRow (maxQueueId s.queue + 1) ce al] = 1 := by
    simp [List.countP_cons, newQueueRow]
  rw [hc1]
  have hc0 : List.countP (fun r : QueueRow =>
      decide (r.cluster_entry_id = ce) && decide (r.alignment_type_id = al))
      s.queue = 0 := h0
  rw [hc0]

/-- C4 witness: from the empty store, two enqueues of the pair (1, 2) leave
exactly one row and coincide with a single enqueue. -/
theorem claim_C4_witness :
    pairCount (enqueueOp 2 (enqueueOp 2 ⟨[], []⟩ 1 2) 1 2) 1 2 = 1 ∧
    enqueueOp 2 (enqueueOp 2 ⟨[], []⟩ 1 2) 1 2 = enqueueOp 2 ⟨[], []⟩ 1 2 := by
  exact ⟨(claim_C4_enqueue_idempotent 2 ⟨[], []⟩ 1 2).2.1 (by decide),
    (claim_C4_enqueue_idempotent 2 ⟨[], []⟩ 1 2).1⟩

/-- C5 counterexample: both `cluster_entry_id` columns are declared
`ForeignKey('clusters.id')` in the source (model.py lines 394 and 425), so
neither references the `cluster_entries` table the claim names. -/
theorem claim_C5_counterexample :
    fkTarget structuralAlignmentQueueTable "cluster_entry_id" ≠ some "cluster_entries.id" ∧
    fkTarget structuralAlignmentResultsTable "cluster_entry_id" ≠ some "cluster_entries.id" := by
  exact ⟨by decide, by decide⟩

/-- C5 as amended: a queue row pairs its `cluster_entry_id` — declared, despite
the name, as a foreign key to `clusters.id` — with an `alignment_type_id`
referencing `structural_alignment_types.id`; a results row's
`cluster_entry_id` likewise references `clusters.id`. -/
theorem claim_C5_fk_targets :
    fkTarget structuralAlignmentQueueTable "cluster_entry_id" = some "clusters.id" ∧
    fkTarget structuralAlignmentQueueTable "alignment_type_id" =
      some "structural_alignment_types.id" ∧
    fkTarget structuralAlignmentResultsTable "cluster_entry_id" = some "clusters.id" := by
  exact ⟨by decide, by decide, by decide⟩

/-! ## Content-addressed sequences (C6) -/

theorem md5Block_bounded (st : MD5State) (block : List Nat) :
    md5StateBounded (md5Block st block) := by
  refine ⟨?_, ?_, ?_, ?_⟩ <;>
    · show _ % 4294967296 < 4294967296
      exact Nat.mod_lt _ (by norm_num)

theorem foldl_md5Block_bounded (l : List (List Nat)) (st : MD5State)
    (h : md5StateBounded st) : md5StateBounded (l.foldl md5Block st) := by
  induction l generalizing st with
  | nil => exact h
  | cons b rest ih => exact ih (md5Block st b) (md5Block_bounded st b)

theorem md5Digest_lt (s : String) :
    md5Digest s < 340282366920938463463374607431768211456 := by
  have h := foldl_md5Block_bounded (md5Chunks (padMessage (strBytes s))) md5Init
    (by refine ⟨?_, ?_, ?_, ?_⟩ <;> norm_num [md5Init])
  obtain ⟨ha, hb, hc, hd⟩ := h
  show _ + _ + _ + _ < _
  omega

theorem md5_exists_collision : ∃ s t : String, s ≠ t ∧ md5 s = md5 t := by
  obtain ⟨s, t, hne, h⟩ := Finite.exists_ne_map_eq_of_infinite
    (fun s : String =>
      (⟨md5Digest s, md5Digest_lt s⟩ : Fin 340282366920938463463374607431768211456))
  refine ⟨s, t, hne, ?_⟩
  have hdig : md5Digest s = md5Digest t := congrArg Fin.val h
  rw [md5, md5, hdig]

/-- C6 counterexample: it is not the case that unequal sequence strings always
receive unequal hashes — `md5` maps the infinitely many strings into a
128-bit digest space, so two distinct sequences share a hash. -/
theorem claim_C6_counterexample :
    ¬ ∀ s t : String, s ≠ t →
        (mkSequence s).sequence_hash ≠ (mkSequence t).sequence_hash := by
  intro h
  obtain ⟨s, t, hne, heq⟩ := md5_exists_collision
  exact h s t hne (by rw [mkSequence, mkSequence, heq])

set_option maxRecDepth 40000 in
/-- C6 as amended: on construction a Sequence's `sequence_hash` is set to the
MD5 hex digest of its sequence string (model.py lines 21-23), a stable
deterministic function — equal sequence strings receive equal hashes — and
deduplication is supported by the unique flag on the `sequence_hash` column;
distinct strings, however, are not guaranteed distinct digests. -/
theorem claim_C6_sequence_hash :
    (∀ s : String, (mkSequence s).sequence_hash = some (md5 s)) ∧
    (∀ s t : String, s = t →
      (mkSequence s).sequence_hash = (mkSequence t).sequence_hash) ∧
    columnUnique sequencesTable "sequence_hash" = true ∧
    md5 "" = "d41d8cd98f00b204e9800998ecf8427e" := by
  refine ⟨fun s => rfl, fun s t h => by rw [h], by decide, ?_⟩
  rfl

set_option maxRecDepth 40000 in
/-- C6 witness: a concrete sequence string, its recorded hash, and the
reference MD5 digest value. -/
theorem claim_C6_witness :
    (mkSequence "MKVLAA").sequence_hash = (mkSequence "MKVLAA").sequence_hash ∧
    (mkSequence "MKVLAA").sequence_hash = some (md5 "MKVLAA") ∧
    md5 "MKVLAA" = "91e251c0d62c621ad69fed6840eb8f86" := by
  refine ⟨claim_C6_sequence_hash.2.1 "MKVLAA" "MKVLAA" rfl,
    claim_C6_sequence_hash.1 "MKVLAA", ?_⟩
  rfl

/-! ## Clustering Engine (C7) -/

theorem betterRep_eq_or (score : Nat → Int) (a b : SeqItem) :
    betterRep score a b = a ∨ betterRep score a b = b := by
  rw [betterRep]
  split
  · exact Or.inr rfl
  · exact Or.inl rfl

theorem foldl_betterRep_mem (score : Nat → Int) (ms : List SeqItem) :
    ∀ m, ms.foldl (betterRep score) m ∈ m :: ms := by
  induction ms with
  | nil => intro m; simp
  | cons c cs ih =>
    intro m
    simp only [List.foldl_cons]
    have h := ih (betterRep score m c)
    rcases List.mem_cons.mp h with he | hcs
    · rw [he]
      rcases betterRep_eq_or score m c with hb | hb <;> rw [hb] <;> simp
    · exact List.mem_cons_of_mem _ (List.mem_cons_of_mem _ hcs)

theorem pickRepresentative_some (score : Nat → Int) (ms : List SeqItem)
    (hne : ms ≠ []) :
    ∃ rep, pickRepresentative score ms = some rep ∧ rep ∈ ms := by
  cases ms with
  | nil => exact absurd rfl hne
  | cons m tl =>
    exact ⟨tl.foldl (betterRep score) m, rfl, foldl_betterRep_mem score tl m⟩

theorem mkEntriesAux_countP (ident : Nat → Int) (cid repId : Nat) :
    ∀ (eid : Nat) (ms : List SeqItem),
      (mkEntriesAux ident cid repId eid ms).countP (fun e => e.is_representative)
        = ms.countP (fun m => decide (m.id = repId)) := by
  intro eid ms
  induction ms generalizing eid with
  | nil => rfl
  | cons m tl ih => simp [mkEntriesAux, List.countP_cons, ih]

theorem mkEntriesAux_length (ident : Nat → Int) (cid repId : Nat) :
    ∀ (eid : Nat) (ms : List SeqItem),
      (mkEntriesAux ident cid repId eid ms).length = ms.length := by
  intro eid ms
  induction ms generalizing eid with
  | nil => rfl
  | cons m tl ih => simp [mkEntriesAux, ih]

theorem mkEntriesAux_cluster_id (ident : Nat → Int) (cid repId : Nat) :
    ∀ (eid : Nat) (ms : List SeqItem) (e : ClusterEntryRow),
      e ∈ mkEntriesAux ident cid repId eid ms → e.cluster_id = cid := by
  intro eid ms
  induction ms generalizing eid with
  | nil => intro e he; simp [mkEntriesAux] at he
  | cons m tl ih =>
    intro e he
    rw [mkEntriesAux] at he
    rcases List.mem_cons.mp he with rfl | htl
    · rfl
    · exact ih _ e htl

theorem countP_id_eq_one :
    ∀ (ms : List SeqItem) (r : SeqItem), (ms.map (fun m => m.id)).Nodup → r ∈ ms →
      ms.countP (fun m => decide (m.id = r.id)) = 1 := by
  intro ms
  induction ms with
  | nil => intro r _ hr; simp at hr
  | cons m tl ih =>
    intro r hnd hr
    rw [List.map_cons, List.nodup_cons] at hnd
    rcases List.mem_cons.mp hr with heq | hrtl
    · have hid : r.id = m.id := by rw [heq]
      rw [List.countP_cons_of_pos _ _ (by simp [hid])]
      have h0 : tl.countP (fun x => decide (x.id = r.id)) = 0 := by
        apply List.countP_eq_zero.mpr
        intro a ha hc
        exact hnd.1 (hid ▸ List.mem_map.mpr ⟨a, ha, of_decide_eq_true hc⟩)
      rw [h0]
    · have hm : ¬ (m.id = r.id) := by
        intro he
        exact hnd.1 (he ▸ List.mem_map.mpr ⟨r, hrtl, rfl⟩)
      rw [List.countP_cons_of_neg _ _ (by simpa using hm)]
      exact ih r hnd.2 hrtl

theorem mkClusterEntries_one_rep (score ident : Nat → Int) (cid : Nat)
    (ms : List SeqItem) (hne : ms ≠ []) (hnd : (ms.map (fun m => m.id)).Nodup) :
    (mkClusterEntries score ident cid ms).countP (fun e => e.is_representative) = 1 := by
  obtain ⟨rep, hpick, hmem⟩ := pickRepresentative_some score ms hne
  rw [mkClusterEntries, hpick, mkEntriesAux_countP]
  exact countP_id_eq_one ms rep hnd hmem

theorem mkClusterEntries_length (score ident : Nat → Int) (cid : Nat)
    (ms : List SeqItem) (hne : ms ≠ []) :
    (mkClusterEntries score ident cid ms).length = ms.length := by
  obtain ⟨rep, hpick, -⟩ := pickRepresentative_some score ms hne
  rw [mkClusterEntries, hpick, mkEntriesAux_length]

theorem clusterRun_length (score ident : Nat → Int) :
    ∀ (cid0 : Nat) (partition : List (List SeqItem)),
      (clusterRun score ident cid0 partition).length = partition.length := by
  intro cid0 partition
  induction partition generalizing cid0 with
  | nil => rfl
  | cons ms rest ih => simp [clusterRun, ih]

/-- C7: after any clustering run over a partition of sequences (each part
non-empty, sequence identifiers distinct), every produced Cluster has exactly
one entry flagged `is_representative` among its own entries, every entry
belongs to its cluster, and cluster and entry counts match the partition. -/
theorem claim_C7_representative_invariant (score ident : Nat → Int) (cid0 : Nat)
    (partition : List (List SeqItem))
    (hmem : ∀ ms ∈ partition, ms ≠ [] ∧ (ms.map (fun m => m.id)).Nodup) :
    (clusterRun score ident cid0 partition).length = partition.length ∧
    (clusterRun score ident cid0 partition).map (fun p => p.2.length) =
      partition.map (fun ms => ms.length) ∧
    ∀ p ∈ clusterRun score ident cid0 partition,
      p.2.countP (fun e => e.is_representative) = 1 ∧
      ∀ e ∈ p.2, e.cluster_id = p.1 := by
  refine ⟨clusterRun_length score ident cid0 partition, ?_, ?_⟩
  · induction partition generalizing cid0 with
    | nil => rfl
    | cons ms rest ih =>
      have hms := hmem ms (List.mem_cons_self ms rest)
      simp only [clusterRun, List.map_cons]
      rw [mkClusterEntries_length score ident cid0 ms hms.1,
        ih (cid0 + 1) (fun t ht => hmem t (List.mem_cons_of_mem ms ht))]
  · induction partition generalizing cid0 with
    | nil => intro p hp; simp [clusterRun] at hp
    | cons ms rest ih =>
      intro p hp
      have hms := hmem ms (List.mem_cons_self ms rest)
      rw [clusterRun] at hp
      rcases List.mem_cons.mp hp with rfl | hrest
      · refine ⟨mkClusterEntries_one_rep score ident cid0 ms hms.1 hms.2, ?_⟩
        intro e he
        rw [mkClusterEntries] at he
        obtain ⟨rep, hpick, -⟩ := pickRepresentative_some score ms hms.1
        rw [hpick] at he
        exact mkEntriesAux_cluster_id ident cid0 rep.id 1 ms e he
      · exact ih (cid0 + 1) (fun t ht => hmem t (List.mem_cons_of_mem ms ht)) p hrest

/-- C7 witness: clustering the five fixture sequences, the one with
identifier 3 clearly most central, yields one Cluster, five ClusterEntry rows
and exactly one representative among them. -/
theorem claim_C7_witness :
    (clusterRun wScore wIdent 1 [fiveSeqs]).length = 1 ∧
    (mkClusterEntries wScore wIdent 1 fiveSeqs).length = 5 ∧
    (mkClusterEntries wScore wIdent 1 fiveSeqs).countP
      (fun e => e.is_representative) = 1 := by
  have hmem : ∀ ms ∈ [fiveSeqs], ms ≠ [] ∧ (ms.map (fun m => m.id)).Nodup := by
    intro ms hms
    rw [List.mem_singleton] at hms
    subst hms
    exact ⟨by decide, by decide⟩
  have h := (claim_C7_representative_invariant wScore wIdent 1 [fiveSeqs] hmem).2.2
    (1, mkClusterEntries wScore wIdent 1 fiveSeqs)
    (by rw [clusterRun]; exact List.mem_cons_self _ _)
  exact ⟨by rfl, by rfl, h.1⟩

/-! ## Task-queue row lookup lemmas -/

theorem findRow_cons_self {r : QueueRow} {tid : Nat} (rs : List QueueRow)
    (h : r.id = tid) : findRow (r :: rs) tid = some r :=
  List.find?_cons_of_pos rs (by simp [h])

theorem findRow_cons_ne {r : QueueRow} {tid : Nat} (rs : List QueueRow)
    (h : ¬ r.id = tid) : findRow (r :: rs) tid = findRow rs tid :=
  List.find?_cons_of_neg rs (by simp [h])

theorem findRow_append_one (q : List QueueRow) (x : QueueRow) (tid : Nat) :
    findRow (q ++ [x]) tid =
      match findRow q tid with
      | some r => some r
      | none => if x.id = tid then some x else none := by
  induction q with
  | nil =>
    show findRow [x] tid = if x.id = tid then some x else none
    by_cases h : x.id = tid
    · rw [findRow_cons_self [] h, if_pos h]
    · rw [findRow_cons_ne [] h, if_neg h]
      rfl
  | cons r rs ih =>
    by_cases h : r.id = tid
    · rw [List.cons_append, findRow_cons_self _ h, findRow_cons_self rs h]
    · rw [List.cons_append, findRow_cons_ne _ h, findRow_cons_ne rs h, ih]

theorem findRow_append_some {q : List QueueRow} {tid : Nat} {r : QueueRow}
    (x : QueueRow) (h : findRow q tid = some r) :
    findRow (q ++ [x]) tid = some r := by
  rw [findRow_append_one, h]

theorem claimQueue_findRow (mr : Nat) (q : List QueueRow) (tid : Nat) :
    findRow (claimQueue mr q) tid = findRow q tid ∨
    ∃ r, findRow q tid = some r ∧ eligible mr r = true ∧
      findRow (claimQueue mr q) tid = some { r with state := QueueState.processing } := by
  induction q with
  | nil => left; rfl
  | cons r rs ih =>
    by_cases he : eligible mr r = true
    · rw [claimQueue, if_pos he]
      by_cases hid : r.id = tid
      · right
        exact ⟨r, findRow_cons_self rs hid, he, findRow_cons_self rs hid⟩
      · left
        have h1 := @findRow_cons_ne { r with state := QueueState.processing } tid rs hid
        rw [h1, findRow_cons_ne rs hid]
    · rw [claimQueue, if_neg he]
      by_cases hid : r.id = tid
      · left
        rw [findRow_cons_self _ hid, findRow_cons_self _ hid]
      · rcases ih with h | ⟨r0, hf, hel, hcf⟩
        · left
          rw [findRow_cons_ne _ hid, findRow_cons_ne _ hid, h]
        · right
          refine ⟨r0, ?_, hel, ?_⟩
          · rw [findRow_cons_ne _ hid]; exact hf
          · rw [findRow_cons_ne _ hid]; exact hcf

theorem failQueue_findRow (mr tid0 : Nat) (msg : String) (q : List QueueRow)
    (tid : Nat) :
    findRow (failQueue mr tid0 msg q) tid = findRow q tid ∨
    (tid = tid0 ∧ ∃ r, findRow q tid = some r ∧ r.state = QueueState.processing ∧
      findRow (failQueue mr tid0 msg q) tid = some (failedRow mr msg r)) := by
  induction q with
  | nil => left; rfl
  | cons r rs ih =>
    by_cases hid0 : r.id = tid0
    · rw [failQueue, if_pos hid0]
      by_cases hst : r.state = QueueState.processing
      · rw [if_pos hst]
        by_cases hid : r.id = tid
        · right
          refine ⟨by rw [← hid, hid0], r, findRow_cons_self rs hid, hst, ?_⟩
          exact findRow_cons_self rs (by simp [failedRow, hid])
        · left
          rw [findRow_cons_ne rs (by simp [failedRow, hid]), findRow_cons_ne rs hid]
      · rw [if_neg hst]
        left
        rfl
    · rw [failQueue, if_neg hid0]
      by_cases hid : r.id = tid
      · left
        rw [findRow_cons_self _ hid, findRow_cons_self _ hid]
      · rcases ih with h | ⟨hteq, r0, hf, hst, hcf⟩
        · left
          rw [findRow_cons_ne _ hid, findRow_cons_ne _ hid, h]
        · right
          refine ⟨hteq, r0, ?_, hst, ?_⟩
          · rw [findRow_cons_ne _ hid]; exact hf
          · rw [findRow_cons_ne _ hid]; exact hcf

theorem failQueue_findRow_pos (mr : Nat) (msg : String) (q : List QueueRow)
    (tid : Nat) (r : QueueRow) (hf : findRow q tid = some r)
    (hst : r.state = QueueState.processing) :
    findRow (failQueue mr tid msg q) tid = some (failedRow mr msg r) := by
  induction q with
  | nil => simp [findRow] at hf
  | cons a rs ih =>
    by_cases hid : a.id = tid
    · rw [findRow_cons_self rs hid] at hf
      have ha : a = r := Option.some.inj hf
      subst ha
      rw [failQueue, if_pos hid, if_pos hst]
      exact findRow_cons_self rs (by simp [failedRow, hid])
    · rw [findRow_cons_ne rs hid] at hf
      rw [failQueue, if_neg hid, findRow_cons_ne _ hid]
      exact ih hf

theorem completeQueue_none_eq (tid : Nat) :
    ∀ q : List QueueRow, (completeQueue tid q).2 = none → (completeQueue tid q).1 = q := by
  intro q
  induction q with
  | nil => intro; rfl
  | cons r rs ih =>
    intro h
    by_cases hid : r.id = tid
    · by_cases hst : r.state = QueueState.processing
      · rw [completeQueue, if_pos hid, if_pos hst] at h
        simp at h
      · rw [completeQueue, if_pos hid, if_neg hst]
    · rw [completeQueue, if_neg hid] at h ⊢
      rw [ih h]

theorem completeQueue_snd (tid : Nat) (q : List QueueRow) :
    (completeQueue tid q).2 = none ∨
    ∃ r, findRow q tid = some r ∧ r.state = QueueState.processing ∧
      (completeQueue tid q).2 = some r.cluster_entry_id := by
  induction q with
  | nil => left; rfl
  | cons r rs ih =>
    by_cases hid : r.id = tid
    · by_cases hst : r.state = QueueState.processing
      · right
        exact ⟨r, findRow_cons_self rs hid, hst, by rw [completeQueue, if_pos hid, if_pos hst]⟩
      · left
        rw [completeQueue, if_pos hid, if_neg hst]
    · rcases ih with h | ⟨r0, hf, hst, hsnd⟩
      · left
        rw [completeQueue, if_neg hid]
        exact h
      · right
        refine ⟨r0, ?_, hst, ?_⟩
        · rw [findRow_cons_ne _ hid]; exact hf
        · rw [completeQueue, if_neg hid]
          exact hsnd

theorem completeQueue_pos (tid : Nat) (q : List QueueRow) (r : QueueRow)
    (hf : findRow q tid = some r) (hst : r.state = QueueState.processing) :
    (completeQueue tid q).2 = some r.cluster_entry_id ∧
    findRow ((completeQueue tid q).1) tid =
      some { r with state := QueueState.completed } := by
  induction q with
  | nil => simp [findRow] at hf
  | cons a rs ih =>
    by_cases hid : a.id = tid
    · rw [findRow_cons_self rs hid] at hf
      have ha : a = r := Option.some.inj hf
      subst ha
      rw [completeQueue, if_pos hid, if_pos hst]
      exact ⟨rfl, findRow_cons_self rs hid⟩
    · rw [findRow_cons_ne rs hid] at hf
      have h := ih hf
      rw [completeQueue, if_neg hid]
      exact ⟨h.1, by rw [findRow_cons_ne _ hid]; exact h.2⟩

theorem completeQueue_findRow (tid0 : Nat) (q : List QueueRow) (tid : Nat) :
    findRow ((completeQueue tid0 q).1) tid = findRow q tid ∨
    (tid = tid0 ∧ ∃ r, findRow q tid = some r ∧ r.state = QueueState.processing ∧
      findRow ((completeQueue tid0 q).1) tid =
        some { r with state := QueueState.completed }) := by
  induction q with
  | nil => left; rfl
  | cons r rs ih =>
    by_cases hid0 : r.id = tid0
    · by_cases hst : r.state = QueueState.processing
      · rw [completeQueue, if_pos hid0, if_pos hst]
        by_cases hid : r.id = tid
        · right
          refine ⟨by rw [← hid, hid0], r, findRow_cons_self rs hid, hst,
            findRow_cons_self rs hid⟩
        · left
          have h1 := @findRow_cons_ne { r with state := QueueState.completed } tid rs hid
          rw [h1, findRow_cons_ne rs hid]
      · rw [completeQueue, if_pos hid0, if_neg hst]
        left
        rfl
    · rw [completeQueue, if_neg hid0]
      by_cases hid : r.id = tid
      · left
        rw [findRow_cons_self _ hid, findRow_cons_self _ hid]
      · rcases ih with h | ⟨hteq, r0, hf, hst, hcf⟩
        · left
          rw [findRow_cons_ne _ hid, findRow_cons_ne _ hid, h]
        · right
          refine ⟨hteq, r0, ?_, hst, ?_⟩
          · rw [findRow_cons_ne _ hid]; exact hf
          · rw [findRow_cons_ne _ hid]; exact hcf

theorem completeOp_eq_none (s : Store) (tid : Nat) (m : AlignMetrics)
    (h : (completeQueue tid s.queue).2 = none) : completeOp s tid m = s := by
  rw [completeOp]
  split
  · rename_i ce heq
    rw [h] at heq
    exact absurd heq (by simp)
  · rfl

theorem completeOp_eq_some (s : Store) (tid : Nat) (m : AlignMetrics) (ce : Nat)
    (h : (completeQueue tid s.queue).2 = some ce) :
    completeOp s tid m =
      { queue := (completeQueue tid s.queue).1
        results := s.results ++ [⟨maxResultId s.results + 1, ce, m⟩] } := by
  rw [completeOp]
  split
  · rename_i ce' heq
    rw [h] at heq
    rw [Option.some.inj heq]
  · rename_i heq
    rw [h] at heq
    exact absurd heq (by simp)

/-! ## Queue invariants -/

theorem claimQueue_map_id (mr : Nat) (q : List QueueRow) :
    (claimQueue mr q).map (fun r => r.id) = q.map (fun r => r.id) := by
  induction q with
  | nil => rfl
  | cons r rs ih =>
    rw [claimQueue]
    by_cases he : eligible mr r = true
    · rw [if_pos he]
      rfl
    · rw [if_neg he, List.map_cons, List.map_cons, ih]

theorem failQueue_map_id (mr tid : Nat) (msg : String) (q : List QueueRow) :
    (failQueue mr tid msg q).map (fun r => r.id) = q.map (fun r => r.id) := by
  induction q with
  | nil => rfl
  | cons r rs ih =>
    rw [failQueue]
    by_cases hid : r.id = tid
    · rw [if_pos hid]
      by_cases hst : r.state = QueueState.processing
      · rw [if_pos hst]
        rfl
      · rw [if_neg hst]
    · rw [if_neg hid, List.map_cons, List.map_cons, ih]

theorem completeQueue_map_id (tid : Nat) (q : List QueueRow) :
    ((completeQueue tid q).1).map (fun r => r.id) = q.map (fun r => r.id) := by
  induction q with
  | nil => rfl
  | cons r rs ih =>
    rw [completeQueue]
    by_cases hid : r.id = tid
    · rw [if_pos hid]
      by_cases hst : r.state = QueueState.processing
      · rw [if_pos hst]
        rfl
      · rw [if_neg hst]
    · rw [if_neg hid, List.map_cons, List.map_cons, ih]

theorem le_maxQueueId (q : List QueueRow) : ∀ r ∈ q, r.id ≤ maxQueueId q := by
  induction q with
  | nil => intro r hr; simp at hr
  | cons a rs ih =>
    intro r hr
    rcases List.mem_cons.mp hr with heq | hrs
    · rw [heq]
      exact le_max_left _ _
    · exact le_trans (ih r hrs) (le_max_right _ _)

theorem nodup_step {mr : Nat} {s s' : Store} (h : QStep mr s s')
    (hn : (s.queue.map (fun r => r.id)).Nodup) :
    (s'.queue.map (fun r => r.id)).Nodup := by
  cases h with
  | enqueue ce al =>
    rw [enqueueOp]
    split
    · exact hn
    · show ((s.queue ++ [newQueueRow (maxQueueId s.queue + 1) ce al]).map
        (fun r => r.id)).Nodup
      rw [List.map_append]
      refine List.nodup_append.mpr ⟨hn, List.nodup_singleton _, ?_⟩
      intro a ha hb
      rw [List.map_singleton, List.mem_singleton] at hb
      obtain ⟨r, hr, hrid⟩ := List.mem_map.mp ha
      have := le_maxQueueId s.queue r hr
      rw [hrid, hb] at this
      show False
      simp [newQueueRow] at this
  | claim =>
    show ((claimQueue mr s.queue).map (fun r => r.id)).Nodup
    rw [claimQueue_map_id]
    exact hn
  | complete tid m =>
    rcases completeQueue_snd tid s.queue with hnone | ⟨r, -, -, hsome⟩
    · rw [completeOp_eq_none s tid m hnone]
      exact hn
    · rw [completeOp_eq_some s tid m r.cluster_entry_id hsome]
      show (((completeQueue tid s.queue).1).map (fun r => r.id)).Nodup
      rw [completeQueue_map_id]
      exact hn
  | fail tid msg =>
    show ((failQueue mr tid msg s.queue).map (fun r => r.id)).Nodup
    rw [failQueue_map_id]
    exact hn

theorem nodup_reachable {mr : Nat} {s : Store} (h : QReachable mr s) :
    (s.queue.map (fun r => r.id)).Nodup := by
  induction h with
  | init => exact List.nodup_nil
  | step _ hstep ih => exact nodup_step hstep ih

theorem nodup_star {mr : Nat} {s s' : Store} (h : QStepStar mr s s')
    (hn : (s.queue.map (fun r => r.id)).Nodup) :
    (s'.queue.map (fun r => r.id)).Nodup := by
  induction h with
  | refl => exact hn
  | tail _ hstep ih => exact nodup_step hstep ih

theorem mem_claimQueue {mr : Nat} {q : List QueueRow} {r' : QueueRow}
    (h : r' ∈ claimQueue mr q) :
    r' ∈ q ∨ ∃ r ∈ q, eligible mr r = true ∧
      r' = { r with state := QueueState.processing } := by
  induction q with
  | nil => simp [claimQueue] at h
  | cons r rs ih =>
    rw [claimQueue] at h
    by_cases he : eligible mr r = true
    · rw [if_pos he] at h
      rcases List.mem_cons.mp h with heq | hrs
      · right
        exact ⟨r, List.mem_cons_self r rs, he, heq⟩
      · left
        exact List.mem_cons_of_mem r hrs
    · rw [if_neg he] at h
      rcases List.mem_cons.mp h with heq | hrs
      · left
        rw [heq]
        exact List.mem_cons_self r rs
      · rcases ih hrs with h1 | ⟨r0, hr0, hel, heq⟩
        · left
          exact List.mem_cons_of_mem r h1
        · right
          exact ⟨r0, List.mem_cons_of_mem r hr0, hel, heq⟩

theorem mem_failQueue {mr tid : Nat} {msg : String} {q : List QueueRow}
    {r' : QueueRow} (h : r' ∈ failQueue mr tid msg q) :
    r' ∈ q ∨ ∃ r ∈ q, r.state = QueueState.processing ∧ r' = failedRow mr msg r := by
  induction q with
  | nil => simp [failQueue] at h
  | cons r rs ih =>
    rw [failQueue] at h
    by_cases hid : r.id = tid
    · rw [if_pos hid] at h
      by_cases hst : r.state = QueueState.processing
      · rw [if_pos hst] at h
        rcases List.mem_cons.mp h with heq | hrs
        · right
          exact ⟨r, List.mem_cons_self r rs, hst, heq⟩
        · left
          exact List.mem_cons_of_mem r hrs
      · rw [if_neg hst] at h
        left
        exact h
    · rw [if_neg hid] at h
      rcases List.mem_cons.mp h with heq | hrs
      · left
        rw [heq]
        exact List.mem_cons_self r rs
      · rcases ih hrs with h1 | ⟨r0, hr0, hst, heq⟩
        · left
          exact List.mem_cons_of_mem r h1
        · right
          exact ⟨r0, List.mem_cons_of_mem r hr0, hst, heq⟩

theorem mem_completeQueue {tid : Nat} {q : List QueueRow} {r' : QueueRow}
    (h : r' ∈ (completeQueue tid q).1) :
    r' ∈ q ∨ ∃ r ∈ q, r.state = QueueState.processing ∧
      r' = { r with state := QueueState.completed } := by
  induction q with
  | nil => simp [completeQueue] at h
  | cons r rs ih =>
    rw [completeQueue] at h
    by_cases hid : r.id = tid
    · rw [if_pos hid] at h
      by_cases hst : r.state = QueueState.processing
      · rw [if_pos hst] at h
        rcases List.mem_cons.mp h with heq | hrs
        · right
          exact ⟨r, List.mem_cons_self r rs, hst, heq⟩
        · left
          exact List.mem_cons_of_mem r hrs
      · rw [if_neg hst] at h
        left
        exact h
    · rw [if_neg hid] at h
      rcases List.mem_cons.mp h with heq | hrs
      · left
        rw [heq]
        exact List.mem_cons_self r rs
      · rcases ih hrs with h1 | ⟨r0, hr0, hst, heq⟩
        · left
          exact List.mem_cons_of_mem r h1
        · right
          exact ⟨r0, List.mem_cons_of_mem r hr0, hst, heq⟩

theorem errorInv_step {mr : Nat} {s s' : Store} (h : QStep mr s s')
    (hi : ∀ r ∈ s.queue, r.state = QueueState.error → mr < r.retry_count) :
    ∀ r ∈ s'.queue, r.state = QueueState.error → mr < r.retry_count := by
  cases h with
  | enqueue ce al =>
    rw [enqueueOp]
    split
    · exact hi
    · intro r hr he
      rcases List.mem_append.mp hr with hq | hnew
      · exact hi r hq he
      · rw [List.mem_singleton.mp hnew] at he
        exact absurd he (by simp [newQueueRow])
  | claim =>
    intro r' hr' he
    rcases mem_claimQueue hr' with hq | ⟨r, hr, -, heq⟩
    · exact hi r' hq he
    · rw [heq] at he
      exact absurd he (by simp)
  | complete tid m =>
    rcases completeQueue_snd tid s.queue with hnone | ⟨r, -, -, hsome⟩
    · rw [completeOp_eq_none s tid m hnone]
      exact hi
    · rw [completeOp_eq_some s tid m r.cluster_entry_id hsome]
      intro r' hr' he
      rcases mem_completeQueue hr' with hq | ⟨r0, hr0, -, heq⟩
      · exact hi r' hq he
      · rw [heq] at he
        exact absurd he (by simp)
  | fail tid msg =>
    intro r' hr' he
    rcases mem_failQueue hr' with hq | ⟨r, hr, hst, heq⟩
    · exact hi r' hq he
    · by_cases hle : r.retry_count + 1 ≤ mr
      · rw [heq, failedRow] at he
        rw [if_pos hle] at he
        exact absurd he (by simp)
      · rw [heq]
        show mr < (failedRow mr msg r).retry_count
        show mr < r.retry_count + 1
        omega

theorem errorInv_reachable {mr : Nat} {s : Store} (h : QReachable mr s) :
    ∀ r ∈ s.queue, r.state = QueueState.error → mr < r.retry_count := by
  induction h with
  | init => intro r hr; simp at hr
  | step _ hstep ih => exact errorInv_step hstep ih

theorem completedCEs_cons (r : QueueRow) (rs : List QueueRow) :
    completedCEs (r :: rs) =
      if r.state = QueueState.completed then r.cluster_entry_id :: completedCEs rs
      else completedCEs rs := by
  by_cases h : r.state = QueueState.completed
  · rw [if_pos h]
    simp [completedCEs, List.filter_cons, h]
  · rw [if_neg h]
    simp [completedCEs, List.filter_cons, h]

theorem completedCEs_claimQueue (mr : Nat) (q : List QueueRow) :
    completedCEs (claimQueue mr q) = completedCEs q := by
  induction q with
  | nil => rfl
  | cons r rs ih =>
    rw [claimQueue]
    by_cases he : eligible mr r = true
    · rw [if_pos he]
      have hnc : ¬ (r.state = QueueState.completed) := by
        rcases of_decide_eq_true he with h1 | ⟨h1, -⟩ <;>
          · rw [h1]; simp
      rw [completedCEs_cons, completedCEs_cons, if_neg hnc, if_neg (by simp)]
    · rw [if_neg he, completedCEs_cons, completedCEs_cons, ih]

theorem completedCEs_failQueue (mr tid : Nat) (msg : String) (q : List QueueRow) :
    completedCEs (failQueue mr tid msg q) = completedCEs q := by
  induction q with
  | nil => rfl
  | cons r rs ih =>
    rw [failQueue]
    by_cases hid : r.id = tid
    · rw [if_pos hid]
      by_cases hst : r.state = QueueState.processing
      · rw [if_pos hst]
        have hnc : ¬ (r.state = QueueState.completed) := by rw [hst]; simp
        have hnc' : ¬ ((failedRow mr msg r).state = QueueState.completed) := by
          rw [failedRow]
          show ¬ ((if r.retry_count + 1 ≤ mr then QueueState.pending
            else QueueState.error) = QueueState.completed)
          split <;> simp
        rw [completedCEs_cons, completedCEs_cons, if_neg hnc, if_neg hnc']
      · rw [if_neg hst]
    · rw [if_neg hid, completedCEs_cons, completedCEs_cons, ih]

theorem completedCEs_append_new (q : List QueueRow) (rid ce al : Nat) :
    completedCEs (q ++ [newQueueRow rid ce al]) = completedCEs q := by
  rw [completedCEs, List.filter_append]
  have h : List.filter (fun r => decide (r.state = QueueState.completed))
      [newQueueRow rid ce al] = [] := by
    simp [newQueueRow, List.filter_cons]
  rw [h, List.append_nil]
  rfl

theorem completeQueue_perm (tid : Nat) :
    ∀ (q : List QueueRow) (ce : Nat), (completeQueue tid q).2 = some ce →
      List.Perm (completedCEs ((completeQueue tid q).1)) (ce :: completedCEs q) := by
  intro q
  induction q with
  | nil => intro ce h; simp [completeQueue] at h
  | cons r rs ih =>
    intro ce h
    by_cases hid : r.id = tid
    · by_cases hst : r.state = QueueState.processing
      · rw [completeQueue, if_pos hid, if_pos hst] at h ⊢
        have hce : r.cluster_entry_id = ce := Option.some.inj h
        rw [completedCEs_cons, completedCEs_cons, if_pos (by simp),
          if_neg (by rw [hst]; simp), hce]
      · rw [completeQueue, if_pos hid, if_neg hst] at h
        simp at h
    · rw [completeQueue, if_neg hid] at h ⊢
      have hp := ih ce h
      rw [completedCEs_cons, completedCEs_cons]
      by_cases hcomp : r.state = QueueState.completed
      · rw [if_pos hcomp, if_pos hcomp]
        exact (hp.cons r.cluster_entry_id).trans (List.Perm.swap _ _ _)
      · rw [if_neg hcomp, if_neg hcomp]
        exact hp

theorem resultCEs_append (rs : List ResultRow) (x : ResultRow) :
    resultCEs (rs ++ [x]) = resultCEs rs ++ [x.cluster_entry_id] := by
  simp [resultCEs]

theorem ceInv_step {mr : Nat} {s s' : Store} (h : QStep mr s s')
    (hi : List.Perm (completedCEs s.queue) (resultCEs s.results)) :
    List.Perm (completedCEs s'.queue) (resultCEs s'.results) := by
  cases h with
  | enqueue ce al =>
    rw [enqueueOp]
    split
    · exact hi
    · show List.Perm
        (completedCEs (s.queue ++ [newQueueRow (maxQueueId s.queue + 1) ce al]))
        (resultCEs s.results)
      rw [completedCEs_append_new]
      exact hi
  | claim =>
    show List.Perm (completedCEs (claimQueue mr s.queue)) (resultCEs s.results)
    rw [completedCEs_claimQueue]
    exact hi
  | complete tid m =>
    rcases completeQueue_snd tid s.queue with hnone | ⟨r, -, -, hsome⟩
    · rw [completeOp_eq_none s tid m hnone]
      exact hi
    · rw [completeOp_eq_some s tid m r.cluster_entry_id hsome]
      show List.Perm (completedCEs ((completeQueue tid s.queue).1))
        (resultCEs (s.results ++ [⟨maxResultId s.results + 1, r.cluster_entry_id, m⟩]))
      rw [resultCEs_append]
      exact ((completeQueue_perm tid s.queue r.cluster_entry_id hsome).trans
        (hi.cons r.cluster_entry_id)).trans (List.perm_append_singleton _ _).symm
  | fail tid msg =>
    show List.Perm (completedCEs (failQueue mr tid msg s.queue)) (resultCEs s.results)
    rw [completedCEs_failQueue]
    exact hi

theorem ceInv_reachable {mr : Nat} {s : Store} (h : QReachable mr s) :
    List.Perm (completedCEs s.queue) (resultCEs s.results) := by
  induction h with
  | init => exact List.Perm.refl _
  | step _ hstep ih => exact ceInv_step hstep ih

theorem results_step_get? {mr : Nat} {s s' : Store} (h : QStep mr s s')
    (i : Nat) (res : ResultRow) (hg : s.results.get? i = some res) :
    s'.results.get? i = some res := by
  cases h with
  | enqueue ce al =>
    rw [enqueueOp]
    split
    · exact hg
    · exact hg
  | claim => exact hg
  | complete tid m =>
    rcases completeQueue_snd tid s.queue with hnone | ⟨r, -, -, hsome⟩
    · rw [completeOp_eq_none s tid m hnone]
      exact hg
    · rw [completeOp_eq_some s tid m r.cluster_entry_id hsome]
      show (s.results ++ [_]).get? i = some res
      obtain ⟨hl, -⟩ := List.get?_eq_some.mp hg
      rw [List.get?_append hl]
      exact hg
  | fail tid msg => exact hg

theorem results_star_get? {mr : Nat} {s s' : Store} (h : QStepStar mr s s')
    (i : Nat) (res : ResultRow) (hg : s.results.get? i = some res) :
    s'.results.get? i = some res := by
  induction h with
  | refl => exact hg
  | tail _ hstep ih => exact results_step_get? hstep i res ih

theorem not_eligible_frozen {mr : Nat} {r : QueueRow}
    (he : r.state = QueueState.error) (hge : mr ≤ r.retry_count) :
    ¬ eligible mr r = true := by
  intro hel
  rcases of_decide_eq_true hel with h1 | ⟨-, h2⟩
  · rw [he] at h1
    exact absurd h1 (by decide)
  · omega

theorem frozen_step {mr : Nat} {s s' : Store} {tid : Nat} {r : QueueRow}
    (h : QStep mr s s') (hf : rowOf s tid = some r)
    (he : r.state = QueueState.error) (hge : mr ≤ r.retry_count) :
    rowOf s' tid = some r := by
  have hfq : findRow s.queue tid = some r := hf
  cases h with
  | enqueue ce al =>
    rw [enqueueOp]
    split
    · exact hf
    · exact findRow_append_some _ hfq
  | claim =>
    rcases claimQueue_findRow mr s.queue tid with h1 | ⟨r0, hf0, hel0, -⟩
    · show findRow (claimQueue mr s.queue) tid = some r
      rw [h1]
      exact hfq
    · rw [hf0] at hfq
      rw [Option.some.inj hfq] at hel0
      exact absurd hel0 (not_eligible_frozen he hge)
  | complete tid0 m =>
    rcases completeQueue_snd tid0 s.queue with hnone | ⟨r0, -, -, hsome⟩
    · rw [completeOp_eq_none s tid0 m hnone]
      exact hf
    · rw [completeOp_eq_some s tid0 m r0.cluster_entry_id hsome]
      rcases completeQueue_findRow tid0 s.queue tid with h1 | ⟨-, r1, hf1, hst1, -⟩
      · show findRow ((completeQueue tid0 s.queue).1) tid = some r
        rw [h1]
        exact hfq
      · rw [hf1] at hfq
        rw [Option.some.inj hfq] at hst1
        rw [he] at hst1
        exact absurd hst1 (by decide)
  | fail tid0 msg =>
    rcases failQueue_findRow mr tid0 msg s.queue tid with h1 | ⟨-, r1, hf1, hst1, -⟩
    · show findRow (failQueue mr tid0 msg s.queue) tid = some r
      rw [h1]
      exact hfq
    · rw [hf1] at hfq
      rw [Option.some.inj hfq] at hst1
      rw [he] at hst1
      exact absurd hst1 (by decide)

theorem frozen_star {mr : Nat} {s s' : Store} {tid : Nat} {r : QueueRow}
    (h : QStepStar mr s s') (hf : rowOf s tid = some r)
    (he : r.state = QueueState.error) (hge : mr ≤ r.retry_count) :
    rowOf s' tid = some r := by
  induction h with
  | refl => exact hf
  | tail _ hstep ih => exact frozen_step hstep ih he hge

theorem claimSel_ne_frozen {mr : Nat} {s : Store} {tid : Nat} {r : QueueRow}
    (hn : (s.queue.map (fun x => x.id)).Nodup) (hf : rowOf s tid = some r)
    (he : r.state = QueueState.error) (hge : mr ≤ r.retry_count) :
    claimSel mr s ≠ some tid := by
  intro hsel
  have hfq : List.find? (fun x => decide (x.id = tid)) s.queue = some r := hf
  rw [claimSel] at hsel
  obtain ⟨e, hfe, heid⟩ := Option.map_eq_some'.mp hsel
  have heme : e ∈ s.queue := List.mem_of_find?_eq_some hfe
  have hele : eligible mr e = true := List.find?_some hfe
  have hrm : r ∈ s.queue := List.mem_of_find?_eq_some hfq
  have hdec := List.find?_some hfq
  have hrid : r.id = tid := by simpa using hdec
  have her : e = r := List.inj_on_of_nodup_map hn heme hrm (by rw [heid, hrid])
  rw [her] at hele
  exact absurd hele (not_eligible_frozen he hge)

theorem wStore_reachable (mr : Nat) : QReachable mr (wStore mr) :=
  QReachable.step (QReachable.step QReachable.init (QStep.enqueue ⟨[], []⟩ 1 1))
    (QStep.claim (enqueueOp mr ⟨[], []⟩ 1 1))

/-! ## Task lifecycle (C1, C2, C3) -/

/-- C1 counterexample: the claimed edge set omits the retry return.  With
`max_retries = 2`, failing the freshly claimed Processing task of `wStore 2`
(whose `retry_count` is 0) moves it directly back to Pending — a
Processing→Pending transition outside Pending→Processing→{Completed|Error}
and not starting from Error. -/
theorem claim_C1_counterexample : ¬ specC1EdgeDiscipline 2 := by
  intro h
  have h2 := h (wStore 2) (failOp 2 (wStore 2) 1 "x") (wStore_reachable 2)
    (QStep.fail (wStore 2) 1 "x") 1 wRowProc (failedRow 2 "x" wRowProc)
    (by decide) (by decide)
  exact absurd h2 (by decide)

/-- C1 as amended: every queue row created by `enqueue` starts Pending
(integer code 0, the schema default) with `retry_count = 0` and NULL
`error_message`; thereafter a row transitions only along
Pending→Processing→{Completed|Error}, plus the retry return
Processing→Pending that increments `retry_count` to a value still at most
the maximum (the spec's Error→Pending edge being admissible only below the
maximum); once Error with `retry_count` at or above the maximum, the row
never changes again. -/
theorem claim_C1_queue_lifecycle (mr : Nat) (s s' : Store)
    (hreach : QReachable mr s) (hstep : QStep mr s s') (tid : Nat) :
    (rowOf s tid = none → ∀ r', rowOf s' tid = some r' →
      r'.state = QueueState.pending ∧ QueueState.toCode r'.state = 0 ∧
      r'.retry_count = 0 ∧ r'.error_message = none) ∧
    (∀ r r', rowOf s tid = some r → rowOf s' tid = some r' →
      r' = r ∨
      (r.state = QueueState.pending ∧ r'.state = QueueState.processing) ∨
      (r.state = QueueState.processing ∧
        (r'.state = QueueState.completed ∨ r'.state = QueueState.error)) ∨
      (r.state = QueueState.processing ∧ r'.state = QueueState.pending ∧
        r'.retry_count = r.retry_count + 1 ∧ r'.retry_count ≤ mr) ∨
      (r.state = QueueState.error ∧ r'.state = QueueState.pending ∧
        r.retry_count < mr)) ∧
    (∀ r, rowOf s tid = some r → r.state = QueueState.error →
      mr ≤ r.retry_count → rowOf s' tid = some r) ∧
    columnDefault structuralAlignmentQueueTable "state" = some "0" ∧
    columnDefault structuralAlignmentQueueTable "retry_count" = some "0" ∧
    columnNullable structuralAlignmentQueueTable "error_message" = true := by
  refine ⟨?_, ?_, ?_, by decide, by decide, by decide⟩
  · -- creation
    intro hnone r' hf'
    have hnq : findRow s.queue tid = none := hnone
    cases hstep with
    | enqueue ce al =>
      rw [enqueueOp] at hf'
      split at hf'
      · rw [hnone] at hf'
        exact absurd hf' (by simp)
      · have : findRow (s.queue ++ [newQueueRow (maxQueueId s.queue + 1) ce al]) tid =
            some r' := hf'
        rw [findRow_append_one, hnq] at this
        have this2 : (if (newQueueRow (maxQueueId s.queue + 1) ce al).id = tid
            then some (newQueueRow (maxQueueId s.queue + 1) ce al) else none) =
            some r' := this
        by_cases hid : (newQueueRow (maxQueueId s.queue + 1) ce al).id = tid
        · rw [if_pos hid] at this2
          rw [← Option.some.inj this2]
          exact ⟨rfl, rfl, rfl, rfl⟩
        · rw [if_neg hid] at this2
          exact absurd this2 (by simp)
    | claim =>
      have hf'' : findRow (claimQueue mr s.queue) tid = some r' := hf'
      rcases claimQueue_findRow mr s.queue tid with h1 | ⟨r0, hf0, -, -⟩
      · rw [h1, hnq] at hf''
        exact absurd hf'' (by simp)
      · rw [hnq] at hf0
        exact absurd hf0 (by simp)
    | complete tid0 m =>
      rcases completeQueue_snd tid0 s.queue with hnone0 | ⟨r0, -, -, hsome⟩
      · rw [completeOp_eq_none s tid0 m hnone0] at hf'
        rw [hnone] at hf'
        exact absurd hf' (by simp)
      · rw [completeOp_eq_some s tid0 m r0.cluster_entry_id hsome] at hf'
        have hf'' : findRow ((completeQueue tid0 s.queue).1) tid = some r' := hf'
        rcases completeQueue_findRow tid0 s.queue tid with h1 | ⟨-, r1, hf1, -, -⟩
        · rw [h1, hnq] at hf''
          exact absurd hf'' (by simp)
        · rw [hnq] at hf1
          exact absurd hf1 (by simp)
    | fail tid0 msg =>
      have hf'' : findRow (failQueue mr tid0 msg s.queue) tid = some r' := hf'
      rcases failQueue_findRow mr tid0 msg s.queue tid with h1 | ⟨-, r1, hf1, -, -⟩
      · rw [h1, hnq] at hf''
        exact absurd hf'' (by simp)
      · rw [hnq] at hf1
        exact absurd hf1 (by simp)
  · -- transition discipline
    intro r r' hf hf'
    have hfq : findRow s.queue tid = some r := hf
    cases hstep with
    | enqueue ce al =>
      left
      rw [enqueueOp] at hf'
      split at hf'
      · rw [hf] at hf'
        exact (Option.some.inj hf').symm
      · have : findRow (s.queue ++ [newQueueRow (maxQueueId s.queue + 1) ce al]) tid =
            some r' := hf'
        rw [findRow_append_one, hfq] at this
        have this2 : some r = some r' := this
        exact (Option.some.inj this2).symm
    | claim =>
      have hf'' : findRow (claimQueue mr s.queue) tid = some r' := hf'
      rcases claimQueue_findRow mr s.queue tid with h1 | ⟨r0, hf0, hel0, hcf⟩
      · left
        rw [h1, hfq] at hf''
        exact (Option.some.inj hf'').symm
      · rw [hfq] at hf0
        have hr0 : r0 = r := (Option.some.inj hf0).symm
        subst hr0
        rw [hcf] at hf''
        have hr' : r' = { r0 with state := QueueState.processing } :=
          (Option.some.inj hf'').symm
        rcases of_decide_eq_true hel0 with hp | ⟨herr, hlt⟩
        · right; left
          exact ⟨hp, by rw [hr']⟩
        · have hmem : r0 ∈ s.queue := List.mem_of_find?_eq_some hfq
          have := errorInv_reachable hreach r0 hmem herr
          omega
    | complete tid0 m =>
      rcases completeQueue_snd tid0 s.queue with hnone0 | ⟨r0, -, -, hsome⟩
      · left
        rw [completeOp_eq_none s tid0 m hnone0] at hf'
        rw [hf] at hf'
        exact (Option.some.inj hf').symm
      · rw [completeOp_eq_some s tid0 m r0.cluster_entry_id hsome] at hf'
        have hf'' : findRow ((completeQueue tid0 s.queue).1) tid = some r' := hf'
        rcases completeQueue_findRow tid0 s.queue tid with h1 | ⟨-, r1, hf1, hst1, hcf⟩
        · left
          rw [h1, hfq] at hf''
          exact (Option.some.inj hf'').symm
        · rw [hfq] at hf1
          have hr1 : r1 = r := (Option.some.inj hf1).symm
          subst hr1
          rw [hcf] at hf''
          have hr' : r' = { r1 with state := QueueState.completed } :=
            (Option.some.inj hf'').symm
          right; right; left
          exact ⟨hst1, Or.inl (by rw [hr'])⟩
    | fail tid0 msg =>
      have hf'' : findRow (failQueue mr tid0 msg s.queue) tid = some r' := hf'
      rcases failQueue_findRow mr tid0 msg s.queue tid with h1 | ⟨-, r1, hf1, hst1, hcf⟩
      · left
        rw [h1, hfq] at hf''
        exact (Option.some.inj hf'').symm
      · rw [hfq] at hf1
        have hr1 : r1 = r := (Option.some.inj hf1).symm
        subst hr1
        rw [hcf] at hf''
        have hr' : r' = failedRow mr msg r1 := (Option.some.inj hf'').symm
        by_cases hle : r1.retry_count + 1 ≤ mr
        · right; right; right; left
          refine ⟨hst1, ?_, ?_, ?_⟩
          · rw [hr']
            show (if r1.retry_count + 1 ≤ mr then QueueState.pending
              else QueueState.error) = QueueState.pending
            rw [if_pos hle]
          · rw [hr']
            rfl
          · rw [hr']
            show r1.retry_count + 1 ≤ mr
            exact hle
        · right; right; left
          refine ⟨hst1, Or.inr ?_⟩
          rw [hr']
          show (if r1.retry_count + 1 ≤ mr then QueueState.pending
            else QueueState.error) = QueueState.error
          rw [if_neg hle]
  · -- terminal Error rows never change
    intro r hf he hge
    exact frozen_step hstep hf he hge

/-- C1 witness: enqueuing into the empty store creates a row in state
Pending (code 0), `retry_count` 0 and NULL `error_message`. -/
theorem claim_C1_witness :
    rowOf (enqueueOp 3 ⟨[], []⟩ 5 7) 1 = some (newQueueRow 1 5 7) ∧
    (newQueueRow 1 5 7).state = QueueState.pending ∧
    QueueState.toCode (newQueueRow 1 5 7).state = 0 ∧
    (newQueueRow 1 5 7).retry_count = 0 ∧
    (newQueueRow 1 5 7).error_message = none := by
  have h := (claim_C1_queue_lifecycle 3 ⟨[], []⟩ (enqueueOp 3 ⟨[], []⟩ 5 7)
    QReachable.init (QStep.enqueue ⟨[], []⟩ 5 7) 1).1 (by rfl)
    (newQueueRow 1 5 7) (by decide)
  exact ⟨by decide, h.1, h.2.1, h.2.2.1, h.2.2.2⟩

/-- C2: `fail` increments `retry_count` by exactly one and records the
message; the state becomes Pending exactly when the incremented count is at
most `max_retries`, else Error.  In particular failing at
`retry_count = max_retries - 1` yields Pending, failing at
`retry_count = max_retries` yields Error, after which no `claim` in any
later reachable store ever selects the task. -/
theorem claim_C2_fail_semantics (mr : Nat) (s : Store) (tid : Nat)
    (msg : String) (r : QueueRow) (hreach : QReachable mr s)
    (hr : rowOf s tid = some r) (hp : r.state = QueueState.processing) :
    (rowOf (failOp mr s tid msg) tid = some (failedRow mr msg r) ∧
      (failedRow mr msg r).retry_count = r.retry_count + 1 ∧
      (failedRow mr msg r).error_message = some msg ∧
      (failedRow mr msg r).state =
        (if r.retry_count + 1 ≤ mr then QueueState.pending else QueueState.error)) ∧
    (r.retry_count + 1 = mr → (failedRow mr msg r).state = QueueState.pending) ∧
    (r.retry_count = mr → (failedRow mr msg r).state = QueueState.error) ∧
    (r.retry_count = mr → ∀ s', QStepStar mr (failOp mr s tid msg) s' →
      rowOf s' tid = some (failedRow mr msg r) ∧ claimSel mr s' ≠ some tid) := by
  have hrq : findRow s.queue tid = some r := hr
  have hfpos : rowOf (failOp mr s tid msg) tid = some (failedRow mr msg r) :=
    failQueue_findRow_pos mr msg s.queue tid r hrq hp
  refine ⟨⟨hfpos, rfl, rfl, rfl⟩, ?_, ?_, ?_⟩
  · intro h1
    show (if r.retry_count + 1 ≤ mr then QueueState.pending
      else QueueState.error) = QueueState.pending
    rw [if_pos (by omega)]
  · intro h1
    show (if r.retry_count + 1 ≤ mr then QueueState.pending
      else QueueState.error) = QueueState.error
    rw [if_neg (by omega)]
  · intro h1 s' hstar
    have herr : (failedRow mr msg r).state = QueueState.error := by
      show (if r.retry_count + 1 ≤ mr then QueueState.pending
        else QueueState.error) = QueueState.error
      rw [if_neg (by omega)]
    have hge : mr ≤ (failedRow mr msg r).retry_count := by
      show mr ≤ r.retry_count + 1
      omega
    have hnod : ((failOp mr s tid msg).queue.map (fun x => x.id)).Nodup :=
      nodup_step (QStep.fail s tid msg) (nodup_reachable hreach)
    refine ⟨frozen_star hstar hfpos herr hge, ?_⟩
    exact claimSel_ne_frozen (nodup_star hstar hnod)
      (frozen_star hstar hfpos herr hge) herr hge

/-- C2 witness: with `max_retries = 0`, failing the Processing task of
`wStore 0` records the message, sets `retry_count` to 1, moves the task to
Error, and the very next `claim` does not select it. -/
theorem claim_C2_witness :
    rowOf (failOp 0 (wStore 0) 1 "boom") 1 = some (failedRow 0 "boom" wRowProc) ∧
    (failedRow 0 "boom" wRowProc).retry_count = 1 ∧
    (failedRow 0 "boom" wRowProc).error_message = some "boom" ∧
    (failedRow 0 "boom" wRowProc).state = QueueState.error ∧
    claimSel 0 (failOp 0 (wStore 0) 1 "boom") ≠ some 1 := by
  have h := claim_C2_fail_semantics 0 (wStore 0) 1 "boom" wRowProc
    (wStore_reachable 0) (by decide) (by decide)
  refine ⟨h.1.1, h.1.2.1, h.1.2.2.1, h.2.2.1 (by decide), ?_⟩
  exact (h.2.2.2 (by decide) (failOp 0 (wStore 0) 1 "boom")
    (QStepStar.refl _)).2

/-- C3: `complete` on a Processing task appends exactly one
StructuralAlignmentResults row carrying the task's `cluster_entry_id` and
sets the task Completed, in one model step; in every reachable store the
Completed tasks' cluster-entry identifiers and the result rows' are the same
multiset (so no Completed task lacks its result row), and a result row, once
written, is never mutated by any later step. -/
theorem claim_C3_complete_result_invariant (mr : Nat) :
    (∀ (s : Store) (tid : Nat) (m : AlignMetrics) (r : QueueRow),
      rowOf s tid = some r → r.state = QueueState.processing →
      (completeOp s tid m).results =
        s.results ++ [⟨maxResultId s.results + 1, r.cluster_entry_id, m⟩] ∧
      rowOf (completeOp s tid m) tid =
        some { r with state := QueueState.completed }) ∧
    (∀ s : Store, QReachable mr s →
      List.Perm (completedCEs s.queue) (resultCEs s.results) ∧
      ∀ r ∈ s.queue, r.state = QueueState.completed →
        ∃ res ∈ s.results, res.cluster_entry_id = r.cluster_entry_id) ∧
    (∀ s s' : Store, QStepStar mr s s' →
      ∀ (i : Nat) (res : ResultRow), s.results.get? i = some res →
        s'.results.get? i = some res) := by
  refine ⟨?_, ?_, ?_⟩
  · intro s tid m r hf hst
    have hfq : findRow s.queue tid = some r := hf
    have hpos := completeQueue_pos tid s.queue r hfq hst
    rw [completeOp_eq_some s tid m r.cluster_entry_id hpos.1]
    exact ⟨rfl, hpos.2⟩
  · intro s hreach
    refine ⟨ceInv_reachable hreach, ?_⟩
    intro r hr hc
    have hmem : r.cluster_entry_id ∈ completedCEs s.queue :=
      List.mem_map.mpr ⟨r, List.mem_filter.mpr ⟨hr, by simp [hc]⟩, rfl⟩
    have hmem' : r.cluster_entry_id ∈ resultCEs s.results :=
      (ceInv_reachable hreach).mem_iff.mp hmem
    obtain ⟨res, hres, heq⟩ := List.mem_map.mp hmem'
    exact ⟨res, hres, heq⟩
  · intro s s' hstar i res hg
    exact results_star_get? hstar i res hg

/-- C3 witness: completing the Processing task of `wStore 2` with the
`ce_rms = 1.2` metrics writes exactly the one result row for cluster entry 1,
marks the task Completed, and the resulting store satisfies the
task/result correspondence. -/
theorem claim_C3_witness :
    (completeOp (wStore 2) 1 wMetrics).results =
      (wStore 2).results ++ [⟨1, 1, wMetrics⟩] ∧
    rowOf (completeOp (wStore 2) 1 wMetrics) 1 =
      some { wRowProc with state := QueueState.completed } ∧
    List.Perm (completedCEs (completeOp (wStore 2) 1 wMetrics).queue)
      (resultCEs (completeOp (wStore 2) 1 wMetrics).results) := by
  have h := (claim_C3_complete_result_invariant 2).1 (wStore 2) 1 wMetrics
    wRowProc (by decide) (by rfl)
  refine ⟨h.1, h.2, ?_⟩
  exact ((claim_C3_complete_result_invariant 2).2.1 (completeOp (wStore 2) 1 wMetrics)
    (QReachable.step (wStore_reachable 2) (QStep.complete (wStore 2) 1 wMetrics))).1

end ProteinMIS
